import Mathlib

/-!
Shallow embedding of the kmididec MIDI-to-PCM decoder core (src/kmididec.c).

Bytes are modelled as natural numbers below 256 held in a `List Nat`.  The
in-memory file (`KMEMFD`) is a byte list together with a cursor.  All C
functions that mutate state through pointers are modelled as functions
returning the mutated state paired with a success flag (`true` = the C
function returned 0, `false` = it returned -1), so that partial mutation
before a failure is preserved exactly as in the source.

Modelling choices for C behaviour that is undefined or unobservable:
* a read past the end of the buffer leaves the destination byte unchanged in
  C (it is uninitialised); the model uses 0 for never-written bytes and keeps
  the previous byte where the C code would see a stale value;
* the fluidsynth synthesizer is a pure event sink: note/controller calls have
  no observable effect on the decoder state and are omitted; the PCM staging
  buffer is tracked only through its length and position;
* `synth.min-note-length` is fluidsynth's default 10 ms, so `clockUnit`
  becomes 10 * (CLOCK_BASE / 1000) microseconds as in `openEx`;
* unbounded C loops (the pre-scan in `openEx`, the drain loop in
  `decodeOS2SysExEvent`, the loops in `kmdecDecode`/`kmdecSeek`) take a fuel
  argument; exhausted fuel marks divergence of the C loop.
-/

/-- Marker of end of track for next tick, `(uint32_t)-1`. -/
def END_OF_TRACK : Nat := 4294967295

/-- OS/2 real-time midi format tag. -/
def OS2MIDI : Nat := 0xFFFF

/-- Clocks per second (microseconds). -/
def CLOCK_BASE : Nat := 1000000

/-- Default tempo in us/qn. -/
def DEFAULT_TEMPO : Nat := 500000

def DEFAULT_NUMERATOR : Nat := 4

def DEFAULT_DENOMINATOR : Nat := 4

/-- Seek mode for `decode`. -/
def DECODE_SEEK : Nat := 0

/-- Play mode for `decode`. -/
def DECODE_PLAY : Nat := 1

/-- `2^32`, the modulus of `uint32_t` arithmetic. -/
def U32 : Nat := 4294967296

/-- `2^64`, the modulus of `uint64_t` arithmetic. -/
def U64 : Nat := 18446744073709551616

/-- Byte `i` of a byte list, 0 where the C program would read an
uninitialised byte. -/
def byteAt (l : List Nat) (i : Nat) : Nat := l.getD i 0

/-- Pad a byte list with zeros up to length `n` (model of the uninitialised
tail of a fixed-size C array that was only partially filled). -/
def padTo (l : List Nat) (n : Nat) : List Nat := l ++ List.replicate (n - l.length) 0

/-- Memory FD: the whole file slurped into memory (`struct kmemfd` after the
final shrink-to-fit, so `size = length = buffer.length`). -/
structure KMemFd where
  buffer : List Nat
  offset : Nat
  deriving Repr, DecidableEq

/-- Header information (`struct kmthd`). -/
structure KMThd where
  format : Nat
  tracks : Nat
  division : Nat
  deriving Repr, DecidableEq

/-- Track information (`struct kmtrk`).  The back pointer to the decoder is
replaced by explicit context passing. -/
structure KMTrk where
  start : Nat
  length : Nat
  offset : Nat
  nextTick : Nat
  status : Nat
  deriving Repr, DecidableEq

/-- The decoder fields reachable through `track->dec` during event decoding:
the memory fd and the tempo / time-signature cells. -/
structure KCtx where
  mfd : KMemFd
  tempo : Nat
  numerator : Nat
  denominator : Nat
  deriving Repr, DecidableEq

/-- MIDI decoder (`struct kmdec`).  fluidsynth handles are not modelled; the
PCM staging buffer is modelled by `bufLen`/`bufPos` only. -/
structure KMDec where
  header : KMThd
  tracks : List KMTrk
  mfd : KMemFd
  closeFd : Bool
  clockUnit : Nat
  sampleRate : Nat
  sampleSize : Nat
  tempo : Nat
  numerator : Nat
  denominator : Nat
  tick : Nat
  clock : Nat
  duration : Nat
  bufLen : Nat
  bufPos : Nat
  deriving Repr, DecidableEq

/-- Audio information (`struct kmdecaudioinfo`). -/
structure KMDecAudioInfo where
  bps : Nat
  channels : Nat
  sampleRate : Nat
  deriving Repr, DecidableEq

/-- `memRead`: read up to `n` bytes at the cursor; returns the bytes actually
read (possibly fewer than `n` at end of file) and the advanced fd. -/
def memReadList (mfd : KMemFd) (n : Nat) : List Nat × KMemFd :=
  let bs := (mfd.buffer.drop mfd.offset).take n
  (bs, { mfd with offset := mfd.offset + bs.length })

/-- `memRead` for a single byte, used where the C code reads into a local
variable: returns the byte (or `stale` when at end of file, where C would
leave the destination untouched) and the advanced fd. -/
def memRead1 (mfd : KMemFd) (stale : Nat) : Nat × KMemFd :=
  if mfd.offset < mfd.buffer.length then
    (byteAt mfd.buffer mfd.offset, { mfd with offset := mfd.offset + 1 })
  else (stale, mfd)

/-- `memSeek` with origins `SEEK_SET = 0`, `SEEK_CUR = 1`, `SEEK_END = 2`;
fails (returns `none`) when the resulting position is outside `[0, length]`.
The C switch leaves `pos` uninitialised for other origins (never exercised);
the model fails there. -/
def memSeek (mfd : KMemFd) (offset : Int) (origin : Nat) : Option KMemFd :=
  let pos : Option Int :=
    if origin = 0 then some offset
    else if origin = 1 then some ((mfd.offset : Int) + offset)
    else if origin = 2 then some ((mfd.buffer.length : Int) + offset)
    else none
  match pos with
  | none => none
  | some p =>
      if p < 0 ∨ (mfd.buffer.length : Int) < p then none
      else some { mfd with offset := p.toNat }

/-- `memTell`. -/
def memTell (mfd : KMemFd) : Nat := mfd.offset

/-- Loop body of `readVarQ`.  `rem = 4 - count` counts the remaining allowed
bytes; `bPrev` is the stale value the C code would see in `b` if `memRead`
hits end of file (initially uninitialised, modelled as 0).  Returns the
decoded value so far, the fd, the track offset, and the success flag. -/
def readVarQGo : Nat → KMemFd → Nat → Nat → Nat → (Nat × KMemFd × Nat) × Bool
  | 0, mfd, trkOff, vq, _ => ((vq, mfd, trkOff), false)
  | rem + 1, mfd, trkOff, vq, bPrev =>
      let r := memRead1 mfd bPrev
      let b := r.1
      let vq1 := vq * 128 + b % 128
      if 128 ≤ b then readVarQGo rem r.2 (trkOff + 1) vq1 b
      else ((vq1, r.2, trkOff + 1), true)

/-- `readVarQ`: read a variable-length quantity of at most 4 bytes at the
current fd position, advancing the track offset once per byte. -/
def readVarQ (mfd : KMemFd) (trkOff : Nat) : (Nat × KMemFd × Nat) × Bool :=
  readVarQGo 4 mfd trkOff 0 0

/-- `decodeDelta`: at or past the end of the track mark `END_OF_TRACK`,
otherwise read a VLQ delta and accumulate it into `nextTick` (uint32). -/
def decodeDelta (trk : KMTrk) (mfd : KMemFd) : (KMTrk × KMemFd) × Bool :=
  if trk.length ≤ trk.offset then
    (({ trk with nextTick := END_OF_TRACK }, mfd), true)
  else
    let r := readVarQ mfd trk.offset
    let delta := r.1.1
    let mfd1 := r.1.2.1
    let off1 := r.1.2.2
    if r.2 then
      (({ trk with offset := off1, nextTick := (trk.nextTick + delta) % U32 }, mfd1), true)
    else
      (({ trk with offset := off1 }, mfd1), false)

/-- The switch of `decodeMetaEvent` over the meta type `ty`, applied after
the type byte, the VLQ length `len` and the `data` payload have been
consumed (leaving `trk2`/`ctx2`): per-type length checks and effects. -/
def decodeMetaSwitch (ty len : Nat) (data : List Nat) (trk2 : KMTrk) (ctx2 : KCtx) :
    (KMTrk × KCtx) × Bool :=
  if ty = 0x00 then ((trk2, ctx2), decide (len = 2))
  else if 0x01 ≤ ty ∧ ty ≤ 0x07 then ((trk2, ctx2), true)
  else if ty = 0x20 then ((trk2, ctx2), decide (len = 1))
  else if ty = 0x2F then ((trk2, ctx2), decide (len = 0 ∧ trk2.offset = trk2.length))
  else if ty = 0x51 then
    if len = 3 then
      ((trk2, { ctx2 with tempo := byteAt data 0 * 65536 + byteAt data 1 * 256 + byteAt data 2 }), true)
    else ((trk2, ctx2), false)
  else if ty = 0x54 then ((trk2, ctx2), decide (len = 5))
  else if ty = 0x58 then
    if len = 4 then
      ((trk2, { ctx2 with numerator := byteAt data 0, denominator := 2 ^ byteAt data 1 % 256 }), true)
    else ((trk2, ctx2), false)
  else if ty = 0x59 then ((trk2, ctx2), decide (len = 2))
  else ((trk2, ctx2), true)

/-- `decodeMetaEvent`: consume `type`, a VLQ length and the declared number
of payload bytes (the declared length is added to the track offset even if
the payload extends past the end of the chunk or of the file), then apply
the per-type length checks and effects of `decodeMetaSwitch`. -/
def decodeMetaEvent (trk : KMTrk) (ctx : KCtx) : (KMTrk × KCtx) × Bool :=
  if trk.length ≤ trk.offset then ((trk, ctx), true)
  else
    let rT := memRead1 ctx.mfd 0
    let ty := rT.1
    let trk1 := { trk with offset := trk.offset + 1 }
    let rq := readVarQ rT.2 trk1.offset
    if ¬ rq.2 then (({ trk1 with offset := rq.1.2.2 }, { ctx with mfd := rq.1.2.1 }), false)
    else
      let len := rq.1.1
      let rD := memReadList rq.1.2.1 len
      decodeMetaSwitch ty len rD.1 { trk1 with offset := rq.1.2.2 + len } { ctx with mfd := rD.2 }

/-- Tail of `decodeEvent` from the data read onwards: read `len` data bytes,
advance the track offset by the declared length, enforce the trailing `F7`
of an `F0` SysEx, dispatch to the synthesizer (pure sink, not modelled) and
decode the next delta time. -/
def decodeEventData (trk : KMTrk) (ctx : KCtx) (status len : Nat) : (KMTrk × KCtx) × Bool :=
  let rD := memReadList ctx.mfd len
  let trk1 := { trk with offset := trk.offset + len }
  let ctx1 := { ctx with mfd := rD.2 }
  if status = 0xF0 ∧ byteAt rD.1 (len - 1) ≠ 0xF7 then ((trk1, ctx1), false)
  else
    let r := decodeDelta trk1 ctx1.mfd
    ((r.1.1, { ctx1 with mfd := r.1.2 }), r.2)

/-- `decodeEvent` after status resolution: reject a data byte without prior
status, store a channel status (< 0xF0) as the running status, compute the
data length per event family, then fall through to `decodeEventData`. -/
def decodeEventRest (trk : KMTrk) (ctx : KCtx) (status : Nat) : (KMTrk × KCtx) × Bool :=
  if status < 0x80 then ((trk, ctx), false)
  else
    let trk1 := if status < 0xF0 then { trk with status := status } else trk
    let event := status &&& 0xF0
    if status = 0xF0 ∨ status = 0xF7 then
      let rq := readVarQ ctx.mfd trk1.offset
      if rq.2 then
        decodeEventData { trk1 with offset := rq.1.2.2 } { ctx with mfd := rq.1.2.1 } status rq.1.1
      else (({ trk1 with offset := rq.1.2.2 }, { ctx with mfd := rq.1.2.1 }), false)
    else if status = 0xFF then
      let rm := decodeMetaEvent trk1 ctx
      if rm.2 then decodeEventData rm.1.1 rm.1.2 status 0
      else (rm.1, false)
    else
      let len :=
        if status = 0xF3 ∨ event = 0xC0 ∨ event = 0xD0 then 1
        else if status = 0xF1 ∨ (0xF4 ≤ status ∧ status ≤ 0xF6) ∨ (0xF8 ≤ status ∧ status ≤ 0xFE) then 0
        else 2
      decodeEventData trk1 ctx status len

/-- `decodeEvent` (SMF branch): stop silently at the end of the chunk, seek
the fd to `start + offset`, read the status byte (rewinding and substituting
the stored running status when its high bit is clear), then continue in
`decodeEventRest`. -/
def decodeEvent (trk : KMTrk) (ctx : KCtx) : (KMTrk × KCtx) × Bool :=
  if trk.length ≤ trk.offset then ((trk, ctx), true)
  else
    match memSeek ctx.mfd ((trk.start + trk.offset : Nat) : Int) 0 with
    | none => ((trk, ctx), false)
    | some mfd1 =>
        let rS := memRead1 mfd1 0
        let trk1 := { trk with offset := trk.offset + 1 }
        if rS.1 < 0x80 then
          match memSeek rS.2 (-1) 1 with
          | none => ((trk1, { ctx with mfd := rS.2 }), false)
          | some mfd2 =>
              decodeEventRest { trk1 with offset := trk1.offset - 1 } { ctx with mfd := mfd2 } trk.status
        else decodeEventRest trk1 { ctx with mfd := rS.2 } rS.1

/-- First loop of `decodeOS2SysExEvent`: read up to 9 bytes (F0 was already
consumed), stopping at the `F7` terminator; returns the bytes read, the
advanced fd and track offset, and whether `F7` was found. -/
def os2SysExScan : Nat → KMemFd → Nat → List Nat → List Nat × KMemFd × Nat × Bool
  | 0, mfd, off, acc => (acc, mfd, off, false)
  | rem + 1, mfd, off, acc =>
      let r := memRead1 mfd 0
      let acc1 := acc ++ [r.1]
      if r.1 = 0xF7 then (acc1, r.2, off + 1, true)
      else os2SysExScan rem r.2 (off + 1) acc1

/-- Drain loop of `decodeOS2SysExEvent`: skip bytes until `F7`.  At end of
file the C loop re-reads a stale byte forever; the fuel models that
divergence as a failure. -/
def os2SysExDrain : Nat → KMemFd → Nat → (KMemFd × Nat) × Bool
  | 0, mfd, off => ((mfd, off), false)
  | fuel + 1, mfd, off =>
      let r := memRead1 mfd 0
      if r.1 = 0xF7 then ((r.2, off + 1), true)
      else os2SysExDrain fuel r.2 (off + 1)

/-- `decodeOS2SysExEvent`: scan for the `F7` terminator within 9 bytes,
drain over-long packets, and interpret `00 00 3A` dialect control messages
(timing compression and tempo control). -/
def decodeOS2SysExEvent (trk : KMTrk) (ctx : KCtx) : (KMTrk × KCtx) × Bool :=
  let s := os2SysExScan 9 ctx.mfd trk.offset []
  let sx := s.1
  let mfd1 := s.2.1
  let trk1 := { trk with offset := s.2.2.1 }
  if s.2.2.2 then
    let ctx1 := { ctx with mfd := mfd1 }
    if sx.take 3 == [0x00, 0x00, 0x3A] then
      let ty := byteAt sx 3 &&& 0x7F
      if ty = 1 then
        let ll := byteAt sx 4 &&& 0x7F
        let mm := byteAt sx 5 &&& 0x7F
        (({ trk1 with nextTick := (trk1.nextTick + (mm * 128 + ll)) % U32 }, ctx1), true)
      else if 7 ≤ ty then
        (({ trk1 with nextTick := (trk1.nextTick + ty) % U32 }, ctx1), true)
      else if ty = 3 then
        if byteAt sx 4 = 2 then
          let tl := byteAt sx 5 &&& 0x7F
          let tm := byteAt sx 6 &&& 0x7F
          ((trk1, { ctx1 with tempo := 60 * 1000000 / ((tm * 128 + tl) / 10) }), true)
        else ((trk1, ctx1), true)
      else ((trk1, ctx1), true)
    else ((trk1, ctx1), true)
  else
    let d := os2SysExDrain (mfd1.buffer.length - mfd1.offset + 1) mfd1 trk1.offset
    (({ trk1 with offset := d.1.2 }, { ctx with mfd := d.1.1 }), d.2)

/-- `decodeOS2Event` after status resolution. -/
def decodeOS2EventRest (trk : KMTrk) (ctx : KCtx) (status : Nat) : (KMTrk × KCtx) × Bool :=
  if status < 0x80 then ((trk, ctx), false)
  else
    let trk1 := if status < 0xF0 then { trk with status := status } else trk
    let event := status &&& 0xF0
    let len :=
      if event = 0xC0 ∨ event = 0xD0 then 1
      else if event = 0xF0 then 0
      else 2
    let rD := memReadList ctx.mfd len
    let trk2 := { trk1 with offset := trk1.offset + len }
    let ctx1 := { ctx with mfd := rD.2 }
    if event = 0xF0 then
      if status = 0xF8 then
        (({ trk2 with nextTick := (trk2.nextTick + 1) % U32 }, ctx1), true)
      else decodeOS2SysExEvent trk2 ctx1
    else ((trk2, ctx1), true)

/-- `decodeOS2Event` (dialect branch): mark `END_OF_TRACK` at the end of the
chunk, else read the status byte at the current fd position (no seek), with
running-status substitution as in the SMF branch. -/
def decodeOS2Event (trk : KMTrk) (ctx : KCtx) : (KMTrk × KCtx) × Bool :=
  if trk.length ≤ trk.offset then
    (({ trk with nextTick := END_OF_TRACK }, ctx), true)
  else
    let rS := memRead1 ctx.mfd 0
    let trk1 := { trk with offset := trk.offset + 1 }
    if rS.1 < 0x80 then
      match memSeek rS.2 (-1) 1 with
      | none => ((trk1, { ctx with mfd := rS.2 }), false)
      | some mfd2 =>
          decodeOS2EventRest { trk1 with offset := trk1.offset - 1 } { ctx with mfd := mfd2 } trk.status
    else decodeOS2EventRest trk1 { ctx with mfd := rS.2 } rS.1

/-- Step 1 of the scheduler (`decode`): for every track whose `nextTick` is
at or below the current tick, decode one event (dialect or SMF branch); a
failure returns immediately with the partially updated track vector, exactly
as the in-place C mutation does.  Also computes the minimum `nextTick` over
the processed tracks (initialised to `END_OF_TRACK`). -/
def decodeTracksGo (format tick : Nat) :
    List KMTrk → KCtx → List KMTrk → Nat → (List KMTrk × KCtx × Nat) × Bool
  | [], ctx, acc, mn => ((acc.reverse, ctx, mn), true)
  | trk :: rest, ctx, acc, mn =>
      let r :=
        if trk.nextTick ≤ tick then
          if format = OS2MIDI then decodeOS2Event trk ctx else decodeEvent trk ctx
        else ((trk, ctx), true)
      if r.2 then
        let mn1 := if r.1.1.nextTick < mn then r.1.1.nextTick else mn
        decodeTracksGo format tick rest r.1.2 (r.1.1 :: acc) mn1
      else ((acc.reverse ++ r.1.1 :: rest, r.1.2, mn), false)

/-- The scheduler (`decode`): run step 1 over all tracks, signal end of
stream when the minimum `nextTick` is `END_OF_TRACK`, and otherwise, when
the minimum exceeds the current tick, advance time by at most one clock
unit, clamped so as not to skip the next event, producing PCM in `PLAY`
mode (tracked only through `bufLen`/`bufPos`). -/
def decode (dec : KMDec) (mode : Nat) : KMDec × Bool :=
  let ctx : KCtx := ⟨dec.mfd, dec.tempo, dec.numerator, dec.denominator⟩
  let r := decodeTracksGo dec.header.format dec.tick dec.tracks ctx [] END_OF_TRACK
  let mn := r.1.2.2
  let dec1 := { dec with tracks := r.1.1, mfd := r.1.2.1.mfd, tempo := r.1.2.1.tempo,
                         numerator := r.1.2.1.numerator, denominator := r.1.2.1.denominator }
  if r.2 then
    if mn = END_OF_TRACK then (dec1, false)
    else if dec1.tick < mn then
      let ticksPerSec := dec1.header.division * CLOCK_BASE / dec1.tempo
      let delta0 := ticksPerSec * dec1.clockUnit / CLOCK_BASE
      let delta1 := if delta0 = 0 then 1 else delta0
      let delta := if mn < dec1.tick + delta1 then mn - dec1.tick else delta1
      let dec2 :=
        if mode = DECODE_PLAY then
          let samples := delta * dec1.sampleRate / ticksPerSec
          { dec1 with bufLen := samples * dec1.sampleSize, bufPos := 0 }
        else dec1
      ({ dec2 with tick := dec2.tick + delta,
                   clock := dec2.clock + CLOCK_BASE * delta / ticksPerSec }, true)
    else (dec1, true)
  else (dec1, false)

/-- Per-track loop of `reset`: rewind each track to its start, re-read the
initial delta (SMF only) and clear the running status.  A failure aborts the
loop with the partially reset track vector (in C the later tracks and the
global fields are then left untouched). -/
def resetGo (format : Nat) :
    List KMTrk → KMemFd → List KMTrk → (List KMTrk × KMemFd) × Bool
  | [], mfd, acc => ((acc.reverse, mfd), true)
  | trk :: rest, mfd, acc =>
      let trk1 := { trk with offset := 0, nextTick := 0 }
      match memSeek mfd (trk1.start : Int) 0 with
      | none => ((acc.reverse ++ trk1 :: rest, mfd), false)
      | some mfd1 =>
          if format ≠ OS2MIDI then
            let r := decodeDelta trk1 mfd1
            if r.2 then resetGo format rest r.1.2 ({ r.1.1 with status := 0 } :: acc)
            else ((acc.reverse ++ r.1.1 :: rest, r.1.2), false)
          else resetGo format rest mfd1 ({ trk1 with status := 0 } :: acc)

/-- `reset`: rewind every track, reset the synthesizer (pure sink), and
restore tempo, time signature, tick, clock and the staging buffer to their
initial values.  On failure the global fields are left untouched, as in C
where the early `return -1` skips them. -/
def reset (dec : KMDec) : KMDec × Bool :=
  let r := resetGo dec.header.format dec.tracks dec.mfd []
  if r.2 then
    ({ dec with tracks := r.1.1, mfd := r.1.2,
                tempo := DEFAULT_TEMPO, numerator := DEFAULT_NUMERATOR,
                denominator := DEFAULT_DENOMINATOR,
                tick := 0, clock := 0, bufLen := 0, bufPos := 0 }, true)
  else ({ dec with tracks := r.1.1, mfd := r.1.2 }, false)

/-- The OS/2 dialect signature test of `initMidiInfo`
(`memcmp(data, "\xF0\x00\x00\x3A\x03\x01\x18", 7) == 0 && data[9] == 0xF7`,
compared bytewise): the first 7 bytes are `F0 00 00 3A 03 01 18` and byte 9
is `F7` — bytes 7 and 8 are unconstrained. -/
def dialectCheck (data : List Nat) : Bool :=
  byteAt data 0 == 0xF0 && byteAt data 1 == 0x00 && byteAt data 2 == 0x00 &&
  byteAt data 3 == 0x3A && byteAt data 4 == 0x03 && byteAt data 5 == 0x01 &&
  byteAt data 6 == 0x18 && byteAt data 9 == 0xF7

/-- The SMF signature test of `initMidiInfo`
(`memcmp(data, "MThd\x00\x00\x00\x06", 8) == 0`, compared bytewise). -/
def mthdCheck (data : List Nat) : Bool :=
  byteAt data 0 == 0x4D && byteAt data 1 == 0x54 && byteAt data 2 == 0x68 &&
  byteAt data 3 == 0x64 && byteAt data 4 == 0x00 && byteAt data 5 == 0x00 &&
  byteAt data 6 == 0x00 && byteAt data 7 == 0x06

/-- The track chunk signature test of `initMidiInfo`
(`memcmp(data, "MTrk", 4) == 0`, compared bytewise). -/
def mtrkCheck (data : List Nat) : Bool :=
  byteAt data 0 == 0x4D && byteAt data 1 == 0x54 && byteAt data 2 == 0x72 &&
  byteAt data 3 == 0x6B

/-- Per-track loop of `initMidiInfo`: require an `"MTrk"` chunk header,
record `start` and the big-endian 32-bit `length`, decode the initial delta
time and skip to the next chunk. -/
def initTracksGo : Nat → KMemFd → List KMTrk → Option (List KMTrk × KMemFd)
  | 0, mfd, acc => some (acc.reverse, mfd)
  | n + 1, mfd, acc =>
      let r8 := memReadList mfd 8
      let d8 := padTo r8.1 8
      if mtrkCheck d8 then
        let start := memTell r8.2
        let length := byteAt d8 4 * 16777216 + byteAt d8 5 * 65536 + byteAt d8 6 * 256 + byteAt d8 7
        let trk0 : KMTrk := ⟨start, length, 0, 0, 0⟩
        let rd := decodeDelta trk0 r8.2
        if rd.2 then
          match memSeek rd.1.2 ((start + length : Nat) : Int) 0 with
          | none => none
          | some mfd1 => initTracksGo n mfd1 (rd.1.1 :: acc)
        else none
      else none

/-- `initMidiInfo`: read the first 10 bytes; an OS/2 real-time capture
preamble yields a single open-ended dialect track (rejecting a zero
division), otherwise require an SMF header, reject format 2 and SMPTE
division, and parse the track directory. -/
def initMidiInfo (bytes : List Nat) : Option (KMThd × List KMTrk × KMemFd) :=
  let mfd0 : KMemFd := ⟨bytes, 0⟩
  let r10 := memReadList mfd0 10
  let d10 := padTo r10.1 10
  if dialectCheck d10 then
    let pp := byteAt d10 7 &&& 0x7F
    let division :=
      if pp &&& 0x40 ≠ 0 then 24 / (((pp &&& 0x3F) + 1) * 3)
      else 24 * (pp + 1)
    if division = 0 then none
    else
      let start := memTell r10.2
      match memSeek r10.2 0 2 with
      | none => none
      | some mfdE =>
          let length := memTell mfdE - start
          match memSeek mfdE (start : Int) 0 with
          | none => none
          | some mfd2 => some (⟨OS2MIDI, 1, division⟩, [⟨start, length, 0, 0, 0⟩], mfd2)
  else
    let r14 := memReadList r10.2 4
    let d14 := d10 ++ padTo r14.1 4
    if mthdCheck d14 then
      let format := byteAt d14 8 * 256 + byteAt d14 9
      let tracks := byteAt d14 10 * 256 + byteAt d14 11
      let division := byteAt d14 12 * 256 + byteAt d14 13
      if 2 ≤ format then none
      else if (division >>> 15) &&& 1 = 1 then none
      else
        match initTracksGo tracks r14.2 [] with
        | none => none
        | some (trks, mfd2) => some (⟨format, tracks, division⟩, trks, mfd2)
    else none

/-- The part of `openEx` before the duration pre-scan: slurp the file, parse
header and tracks, configure the synthesizer (only the sample geometry is
observable) and initialise the decoder fields, as `calloc` plus the explicit
assignments do. -/
def initDec (bytes : List Nat) (ai : KMDecAudioInfo) (closeFd : Bool) : Option KMDec :=
  match initMidiInfo bytes with
  | none => none
  | some (hdr, trks, mfd) =>
      if ai.bps = 16 ∨ ai.bps = 32 then
        some { header := hdr, tracks := trks, mfd := mfd, closeFd := closeFd,
               clockUnit := 10 * (CLOCK_BASE / 1000),
               sampleRate := ai.sampleRate,
               sampleSize := ai.channels * (ai.bps >>> 3),
               tempo := DEFAULT_TEMPO, numerator := DEFAULT_NUMERATOR,
               denominator := DEFAULT_DENOMINATOR,
               tick := 0, clock := 0, duration := 0, bufLen := 0, bufPos := 0 }
      else none

/-- The duration pre-scan loop of `openEx`: `while (decode(dec, DECODE_SEEK) != -1);`.
Returns the state after the first failing call; `none` when the fuel is
exhausted (the C loop would still be running). -/
def prescanRun : Nat → KMDec → Option KMDec
  | 0, _ => none
  | fuel + 1, d =>
      let r := decode d DECODE_SEEK
      if r.2 then prescanRun fuel r.1 else some r.1

/-- Decoder state at the end of the `openEx` pre-scan, before `duration` is
captured and the decoder is rewound. -/
def prescanStop (bytes : List Nat) (ai : KMDecAudioInfo) (fuel : Nat) : Option KMDec :=
  match initDec bytes ai true with
  | none => none
  | some d => prescanRun fuel d

/-- `kmdecOpen` (via `openEx`): parse, pre-scan to compute `duration`, and
rewind with `reset`.  `fuel` bounds the pre-scan loop. -/
def openDec (bytes : List Nat) (ai : KMDecAudioInfo) (fuel : Nat) : Option KMDec :=
  match prescanStop bytes ai fuel with
  | none => none
  | some dP =>
      let r := reset { dP with duration := dP.clock }
      if r.2 then some r.1 else none

/-- Loop of `kmdecDecode`: refill the staging buffer via `decode` in `PLAY`
mode when empty, stop at end of stream or error, and otherwise hand out
`min size bufLen` bytes per iteration. -/
def kmdecDecodeGo : Nat → KMDec → Nat → Nat → KMDec × Nat
  | 0, d, _, total => (d, total)
  | fuel + 1, d, size, total =>
      if size = 0 then (d, total)
      else if d.bufLen = 0 then
        let r := decode d DECODE_PLAY
        if r.2 then
          let len := min size r.1.bufLen
          kmdecDecodeGo fuel
            { r.1 with bufPos := r.1.bufPos + len, bufLen := r.1.bufLen - len }
            (size - len) (total + len)
        else (r.1, total)
      else
        let len := min size d.bufLen
        kmdecDecodeGo fuel
          { d with bufPos := d.bufPos + len, bufLen := d.bufLen - len }
          (size - len) (total + len)

/-- `kmdecDecode`: a NULL decoder reads 0 bytes; otherwise run the fill
loop.  Returns the updated decoder and the number of bytes written. -/
def kmdecDecode (dec : Option KMDec) (size fuel : Nat) : Option KMDec × Nat :=
  match dec with
  | none => (none, 0)
  | some d =>
      let r := kmdecDecodeGo fuel d size 0
      (some r.1, r.2)

/-- `kmdecGetDuration`: -1 for a NULL decoder, else `1000 * duration / CLOCK_BASE`. -/
def kmdecGetDuration (dec : Option KMDec) : Int :=
  match dec with
  | none => -1
  | some d => ((1000 * d.duration / CLOCK_BASE : Nat) : Int)

/-- `kmdecGetPosition`: -1 for a NULL decoder, else `1000 * clock / CLOCK_BASE`. -/
def kmdecGetPosition (dec : Option KMDec) : Int :=
  match dec with
  | none => -1
  | some d => ((1000 * d.clock / CLOCK_BASE : Nat) : Int)

/-- Seek loop of `kmdecSeek`: `while (dec->clock < clock && decode(dec, DECODE_SEEK) != -1);`. -/
def seekLoop : Nat → Nat → KMDec → KMDec
  | 0, _, d => d
  | fuel + 1, tgt, d =>
      if d.clock < tgt then
        let r := decode d DECODE_SEEK
        if r.2 then seekLoop fuel tgt r.1 else r.1
      else d

/-- `kmdecSeek`: resolve the target clock from the origin (`uint64_t`
arithmetic with the explicit wrap-around check of the source), clamp it to
`[0, duration]`, `reset` when seeking backwards, run the scheduler in seek
mode, and report whether the target was reached. -/
def kmdecSeek (dec : Option KMDec) (offset : Int) (origin : Int) (fuel : Nat) :
    Option KMDec × Int :=
  match dec with
  | none => (none, -1)
  | some d =>
      let originClock : Option Nat :=
        if origin = 0 then some 0
        else if origin = 1 then some d.clock
        else if origin = 2 then some d.duration
        else none
      match originClock with
      | none => (some d, -1)
      | some oc =>
          let clock0 : Nat := (((oc : Int) + Int.tdiv ((CLOCK_BASE : Int) * offset) 1000).emod (U64 : Int)).toNat
          let clock1 : Nat :=
            if offset < 0 ∧ oc < clock0 then 0
            else if d.duration < clock0 then d.duration
            else clock0
          let d1 := if clock1 < d.clock then (reset d).1 else d
          let d2 := seekLoop fuel clock1 d1
          (some d2, if clock1 ≤ d2.clock then 0 else -1)

/-- Release actions performed by `kmdecClose`, in source order. -/
inductive CloseAct where
  | freeBuffer
  | unloadSoundFont
  | deleteSynth
  | deleteSettings
  | freeTracks
  | closeMemFd
  | closeFd
  | freeDec
  deriving Repr, DecidableEq

/-- `kmdecClose`: the sequence of release actions; a NULL decoder performs
none.  (The soundfont is always loaded in a successfully opened decoder.) -/
def kmdecClose (dec : Option KMDec) : List CloseAct :=
  match dec with
  | none => []
  | some d =>
      [CloseAct.freeBuffer, CloseAct.unloadSoundFont, CloseAct.deleteSynth,
       CloseAct.deleteSettings, CloseAct.freeTracks, CloseAct.closeMemFd] ++
      (if d.closeFd then [CloseAct.closeFd] else []) ++ [CloseAct.freeDec]

/-! ### Specification-side definitions

The following definitions transcribe the wording of the specification (not
the source); the theorems below compare them with the embedded code. -/

/-- Spec §4.4 step 3: `ticks_per_sec = division · CLOCK_BASE / tempo`. -/
def specTicksPerSec (division tempo : Nat) : Nat := division * CLOCK_BASE / tempo

/-- Spec §4.4 steps 3–4: `Δ = ticks_per_sec · clock_unit / CLOCK_BASE`,
replaced by 1 when zero, then clamped to `min_next − tick` whenever
`tick + Δ` would pass `min_next`. -/
def specDelta (division tempo clockUnit tick minNext : Nat) : Nat :=
  let d0 := specTicksPerSec division tempo * clockUnit / CLOCK_BASE
  let d1 := if d0 = 0 then 1 else d0
  if tick + d1 > minNext then minNext - tick else d1

/-- C4's reading of the dialect dispatch (spec §4.3.1): the first 10 bytes
match `F0 00 00 3A 03 01 18 pp qq F7` with `qq = F7`, i.e. bytes 8 *and* 9
are both `F7`. -/
def specDialectCond (bytes : List Nat) : Bool :=
  byteAt bytes 0 == 0xF0 && byteAt bytes 1 == 0x00 && byteAt bytes 2 == 0x00 &&
  byteAt bytes 3 == 0x3A && byteAt bytes 4 == 0x03 && byteAt bytes 5 == 0x01 &&
  byteAt bytes 6 == 0x18 && byteAt bytes 8 == 0xF7 && byteAt bytes 9 == 0xF7

/-- Spec §4.3.1: the dialect time base — with `pp` masked to 7 bits,
`division = 24 / ((pp & 0x3F + 1) · 3)` when bit 6 of `pp` is set, else
`division = 24 · (pp + 1)`. -/
def specDialectDivision (pp : Nat) : Nat :=
  if pp &&& 0x40 ≠ 0 then 24 / (((pp &&& 0x3F) + 1) * 3) else 24 * (pp + 1)

/-- The reference variable-length-quantity encoding (glossary, §4.3.3):
1–4 bytes, 7 data bits per byte, high bit as continuation, most significant
group first. -/
def encodeVLQ (v : Nat) : List Nat :=
  if v < 128 then [v]
  else if v < 16384 then [128 + v / 128, v % 128]
  else if v < 2097152 then [128 + v / 16384, 128 + v / 128 % 128, v % 128]
  else [128 + v / 2097152, 128 + v / 16384 % 128, 128 + v / 128 % 128, v % 128]

/-- Spec §4.5 `seek`: the absolute target clock, clamped to `0` on negative
overflow and to `duration` on positive overflow. -/
def specSeekTarget (originClock duration : Nat) (offset : Int) : Nat :=
  (max 0 (min (duration : Int)
    ((originClock : Int) + Int.tdiv ((CLOCK_BASE : Int) * offset) 1000))).toNat

/-! ### Trajectory machinery for the clock/duration invariant -/

/-- One scheduler call in seek mode, keeping the mutated state whether or
not the call succeeded (the C `decode` mutates `*dec` in place). -/
def stepSeek (d : KMDec) : KMDec := (decode d DECODE_SEEK).1

/-- The state after `n` scheduler calls in seek mode. -/
def traj (d : KMDec) : Nat → KMDec
  | 0 => d
  | n + 1 => stepSeek (traj d n)

/-- A decoder state with the PCM staging-buffer counters cleared: two states
with the same `bufErase` image differ at most in `bufLen`/`bufPos`, which
the scheduler never reads. -/
def bufErase (d : KMDec) : KMDec := { d with bufLen := 0, bufPos := 0 }

/-- All tracks have reached `END_OF_TRACK`. -/
def allEnd (d : KMDec) : Prop := ∀ t ∈ d.tracks, t.nextTick = END_OF_TRACK

/-- All tracks have `nextTick` within the `uint32_t` range. -/
def ntLe (d : KMDec) : Prop := ∀ t ∈ d.tracks, t.nextTick ≤ END_OF_TRACK

/-- Public mutating calls after `open`: `kmdecDecode` with a request size
and `kmdecSeek` with an offset and origin (each loop carries its fuel). -/
inductive KOp where
  | kdecode (size fuel : Nat)
  | kseek (offset origin : Int) (fuel : Nat)

/-- Apply one public call to a (non-NULL) decoder, keeping the updated
state. -/
def applyOp (d : KMDec) : KOp → KMDec
  | KOp.kdecode size fuel => (kmdecDecodeGo fuel d size 0).1
  | KOp.kseek offset origin fuel => ((kmdecSeek (some d) offset origin fuel).1).getD d

/-- Apply a sequence of public calls. -/
def applyOps (ops : List KOp) (d : KMDec) : KMDec :=
  ops.foldl applyOp d

/-! ### Concrete instances used by witnesses and counterexamples -/

/-- Standard audio configuration: signed 16-bit, stereo, 44100 Hz. -/
def aiStd : KMDecAudioInfo := ⟨16, 2, 44100⟩

/-- Spec §8 S1: minimal SMF format 0 file (96 PPQN, one empty track). -/
def s1File : List Nat :=
  [0x4D, 0x54, 0x68, 0x64, 0, 0, 0, 6, 0, 0, 0, 1, 0, 0x60,
   0x4D, 0x54, 0x72, 0x6B, 0, 0, 0, 4, 0x00, 0xFF, 0x2F, 0x00]

/-- Spec §8 S2: division 480, tempo 500 000 for 480 ticks, then tempo
1 000 000 for 480 ticks, then end of track. -/
def s2File : List Nat :=
  [0x4D, 0x54, 0x68, 0x64, 0, 0, 0, 6, 0, 0, 0, 1, 0x01, 0xE0,
   0x4D, 0x54, 0x72, 0x6B, 0, 0, 0, 0x14,
   0x00, 0xFF, 0x51, 0x03, 0x07, 0xA1, 0x20,
   0x83, 0x60, 0xFF, 0x51, 0x03, 0x0F, 0x42, 0x40,
   0x83, 0x60, 0xFF, 0x2F, 0x00]

/-- Spec §8 S6: an SMF header whose division is `0x80 0x00` (SMPTE). -/
def s6File : List Nat :=
  [0x4D, 0x54, 0x68, 0x64, 0, 0, 0, 6, 0, 0, 0, 1, 0x80, 0x00,
   0x4D, 0x54, 0x72, 0x6B, 0, 0, 0, 4, 0x00, 0xFF, 0x2F, 0x00]

/-- A file accepted by `open` on which the pre-scan stops at a parse error
(an `F0` SysEx without the `F7` terminator): division 1, tempo meta set to
1 000 000, the malformed SysEx, then bytes that the after-error retry
re-parses as a note-on and a delta of 1 tick. -/
def cexFile : List Nat :=
  [0x4D, 0x54, 0x68, 0x64, 0, 0, 0, 6, 0, 0, 0, 1, 0, 1,
   0x4D, 0x54, 0x72, 0x6B, 0, 0, 0, 0x0F,
   0x00, 0xFF, 0x51, 0x03, 0x0F, 0x42, 0x40,
   0x00, 0xF0, 0x01, 0x00,
   0x90, 0x3C, 0x40, 0x01]

/-- An SMF header declaring format 2. -/
def f2File : List Nat :=
  [0x4D, 0x54, 0x68, 0x64, 0, 0, 0, 6, 0, 2, 0, 1, 0, 0x60,
   0x4D, 0x54, 0x72, 0x6B, 0, 0, 0, 4, 0x00, 0xFF, 0x2F, 0x00]

/-- A 10-byte file taken into the dialect branch by the code although its
byte 8 (`qq`) is `0x00`, not `F7`. -/
def dlFile : List Nat := [0xF0, 0x00, 0x00, 0x3A, 0x03, 0x01, 0x18, 0x00, 0x00, 0xF7]

/-- Pointwise `nextTick` ordering between track vectors. -/
def ntLeRel (a b : KMTrk) : Prop := a.nextTick ≤ b.nextTick

/-- The per-track fields the event decoders never modify. -/
def trkSL (t : KMTrk) : Nat × Nat := (t.start, t.length)

/-- A decoder whose single track has two zero-delta note-on events queued
at tick 0: after the step-1 loop fires the first event, the track's
`nextTick` is still equal to the current tick. -/
def c5Dec : KMDec :=
  { header := ⟨0, 1, 96⟩, tracks := [⟨0, 8, 0, 0, 0⟩],
    mfd := ⟨[0x90, 0x3C, 0x40, 0x00, 0x90, 0x3E, 0x40, 0x00], 0⟩, closeFd := true,
    clockUnit := 10000, sampleRate := 44100, sampleSize := 4,
    tempo := 500000, numerator := 4, denominator := 4,
    tick := 0, clock := 0, duration := 0, bufLen := 0, bufPos := 0 }

/-- A track list whose single track waits at tick 5. -/
def c1Trks : List KMTrk := [⟨0, 8, 1, 5, 0⟩]

/-- The context of `c1Dec`. -/
def c1Ctx : KCtx := ⟨⟨[0x00, 0x90, 0x3C, 0x40, 0x00, 0xFF, 0x2F, 0x00], 1⟩, 500000, 4, 4⟩

/-- A decoder whose single track waits at tick 5 while the clock is at
tick 0: the next scheduler call advances time. -/
def c1Dec : KMDec :=
  { header := ⟨0, 1, 96⟩, tracks := c1Trks, mfd := c1Ctx.mfd, closeFd := true,
    clockUnit := 10000, sampleRate := 44100, sampleSize := 4,
    tempo := 500000, numerator := 4, denominator := 4,
    tick := 0, clock := 0, duration := 1000000, bufLen := 0, bufPos := 0 }

/-- The decoder obtained by opening the S1 file (used by the C2 witness). -/
def w2Dec : KMDec := (openDec s1File aiStd 10).getD c1Dec

/-- The state at which the replayed pre-scan of `w2Dec` stops. -/
def w2End : KMDec := (prescanRun 10 w2Dec).getD c1Dec

/-! ### Helper lemmas -/

theorem byteAt_nil (i : Nat) : byteAt [] i = 0 := by
  cases i <;> rfl

theorem byteAt_cons_zero (a : Nat) (l : List Nat) : byteAt (a :: l) 0 = a := rfl

theorem byteAt_cons_succ (a : Nat) (l : List Nat) (i : Nat) :
    byteAt (a :: l) (i + 1) = byteAt l i := rfl

theorem byteAt_eq_zero_of_le (l : List Nat) (i : Nat) (h : l.length ≤ i) :
    byteAt l i = 0 := by
  unfold byteAt
  exact List.getD_eq_default _ _ h

theorem lt_length_of_byteAt_ne (l : List Nat) (i : Nat) (h : byteAt l i ≠ 0) :
    i < l.length := by
  by_contra hc
  exact h (byteAt_eq_zero_of_le l i (Nat.le_of_not_lt hc))

theorem byteAt_append (l l' : List Nat) (i : Nat) :
    byteAt (l ++ l') i = if i < l.length then byteAt l i else byteAt l' (i - l.length) := by
  unfold byteAt
  split
  · exact List.getD_append _ _ _ _ (by assumption)
  · exact List.getD_append_right _ _ _ _ (Nat.le_of_not_lt (by assumption))

theorem byteAt_replicate_zero (n i : Nat) : byteAt (List.replicate n 0) i = 0 := by
  unfold byteAt
  rcases lt_or_ge i n with h | h
  · rw [List.getD_eq_getElem _ _ (by simpa using h), List.getElem_replicate]
  · exact List.getD_eq_default _ _ (by simpa using h)

theorem byteAt_padTo (l : List Nat) (n i : Nat) : byteAt (padTo l n) i = byteAt l i := by
  unfold padTo
  rw [byteAt_append]
  split
  · rfl
  · rw [byteAt_replicate_zero,
        byteAt_eq_zero_of_le l i (Nat.le_of_not_lt (by assumption))]

theorem byteAt_take (l : List Nat) (n i : Nat) :
    byteAt (l.take n) i = if i < n then byteAt l i else 0 := by
  unfold byteAt
  rw [List.getD_eq_getElem?_getD, List.getElem?_take]
  split
  · exact (List.getD_eq_getElem?_getD l i 0).symm
  · rfl

theorem padTo_length (l : List Nat) (n : Nat) : (padTo l n).length = max l.length n := by
  simp [padTo]
  omega

theorem byteAt_padTake (bytes : List Nat) (n i : Nat) :
    byteAt (padTo (bytes.take n) n) i = if i < n then byteAt bytes i else 0 := by
  rw [byteAt_padTo, byteAt_take]

/-- The dialect test of `initMidiInfo` on the padded 10-byte read agrees
with the same test on the raw file bytes. -/
theorem dialectCheck_padTake (bytes : List Nat) :
    dialectCheck (padTo (bytes.take 10) 10) = dialectCheck bytes := by
  simp [dialectCheck, byteAt_padTake]

/-- The `MThd` test of `initMidiInfo` on the padded 14-byte buffer agrees
with the same test on the raw file bytes. -/
theorem mthdCheck_padTake (bytes rest : List Nat) :
    mthdCheck (padTo (bytes.take 10) 10 ++ rest) = mthdCheck bytes := by
  have hlen : 10 ≤ (padTo (bytes.take 10) 10).length := by
    rw [padTo_length]
    omega
  simp only [mthdCheck, byteAt_append]
  rw [if_pos (by omega), if_pos (by omega), if_pos (by omega), if_pos (by omega),
      if_pos (by omega), if_pos (by omega), if_pos (by omega), if_pos (by omega)]
  simp [byteAt_padTake]

/-- Bytes 8 and 9 (format) and 12, 13 (division) of the padded header
buffer agree with the raw file bytes. -/
theorem byteAt_hdr_low (bytes rest : List Nat) (i : Nat) (hi : i < 10) :
    byteAt (padTo (bytes.take 10) 10 ++ rest) i = byteAt bytes i := by
  rw [byteAt_append, if_pos (by rw [padTo_length]; omega), byteAt_padTake, if_pos hi]

theorem byteAt_drop (l : List Nat) (n i : Nat) : byteAt (l.drop n) i = byteAt l (n + i) := by
  unfold byteAt
  rw [List.getD_eq_getElem?_getD, List.getD_eq_getElem?_getD, List.getElem?_drop]

/-- Bytes 10–13 of the 14-byte header buffer of `initMidiInfo` agree with
the raw file bytes (both are 0 when the file is shorter). -/
theorem byteAt_hdr_high (bytes : List Nat) (j : Nat) (hj : j < 4) :
    byteAt (padTo (bytes.take 10) 10 ++ padTo ((bytes.drop ((bytes.take 10).length)).take 4) 4)
      (10 + j) = byteAt bytes (10 + j) := by
  rw [byteAt_append, if_neg (by rw [padTo_length]; simp)]
  rw [show 10 + j - (padTo (bytes.take 10) 10).length = j by rw [padTo_length]; simp]
  rw [byteAt_padTake, if_pos hj, byteAt_drop]
  rcases le_or_lt 10 bytes.length with h | h
  · rw [show (bytes.take 10).length = 10 by simp; omega]
  · rw [byteAt_eq_zero_of_le bytes _ (by simp; omega),
        byteAt_eq_zero_of_le bytes _ (by omega)]

theorem byteAt_append_add (pre l : List Nat) (i : Nat) :
    byteAt (pre ++ l) (pre.length + i) = byteAt l i := by
  rw [byteAt_append, if_neg (by omega)]
  congr 1
  omega

theorem byteAt_append_self (pre l : List Nat) :
    byteAt (pre ++ l) pre.length = byteAt l 0 := by
  have := byteAt_append_add pre l 0
  simpa using this

/-- One `readVarQ` loop iteration on a continuation byte (high bit set). -/
theorem readVarQGo_cont (rem : Nat) (buf : List Nat) (off o vq bp b : Nat)
    (hb : byteAt buf off = b) (hoff : off < buf.length) (hcont : 128 ≤ b) :
    readVarQGo (rem + 1) ⟨buf, off⟩ o vq bp =
      readVarQGo rem ⟨buf, off + 1⟩ (o + 1) (vq * 128 + b % 128) b := by
  simp only [readVarQGo, memRead1]
  rw [if_pos hoff]
  simp only [hb]
  rw [if_pos hcont]

/-- The final `readVarQ` loop iteration on a byte with clear high bit. -/
theorem readVarQGo_stop (rem : Nat) (buf : List Nat) (off o vq bp b : Nat)
    (hb : byteAt buf off = b) (hoff : off < buf.length) (hstop : b < 128) :
    readVarQGo (rem + 1) ⟨buf, off⟩ o vq bp =
      ((vq * 128 + b % 128, ⟨buf, off + 1⟩, o + 1), true) := by
  simp only [readVarQGo, memRead1]
  rw [if_pos hoff]
  simp only [hb]
  rw [if_neg (by omega)]

/-- Decoding the reference VLQ encoding of `v < 2^28` at the current fd
position yields `v`, advancing the fd and the track offset by exactly the
number of encoded bytes. -/
theorem readVarQ_encode (v : Nat) (pre rest : List Nat) (o : Nat) (hv : v < 268435456) :
    readVarQ ⟨pre ++ (encodeVLQ v ++ rest), pre.length⟩ o =
      ((v, ⟨pre ++ (encodeVLQ v ++ rest), pre.length + (encodeVLQ v).length⟩,
        o + (encodeVLQ v).length), true) := by
  by_cases h1 : v < 128
  · have he : encodeVLQ v = [v] := by simp [encodeVLQ, h1]
    rw [he]
    have hb0 : byteAt (pre ++ ([v] ++ rest)) pre.length = v :=
      (byteAt_append_self _ _).trans rfl
    rw [readVarQ, readVarQGo_stop 3 _ _ _ _ _ v hb0 (by simp) h1]
    simp
    omega
  · by_cases h2 : v < 16384
    · have he : encodeVLQ v = [128 + v / 128, v % 128] := by
        simp [encodeVLQ, h1, h2]
      rw [he]
      have hb0 : byteAt (pre ++ ([128 + v / 128, v % 128] ++ rest)) pre.length =
          128 + v / 128 := (byteAt_append_self _ _).trans rfl
      have hb1 : byteAt (pre ++ ([128 + v / 128, v % 128] ++ rest)) (pre.length + 1) =
          v % 128 := (byteAt_append_add _ _ 1).trans rfl
      rw [readVarQ, readVarQGo_cont 3 _ _ _ _ _ _ hb0 (by simp) (by omega)]
      rw [readVarQGo_stop 2 _ _ _ _ _ _ hb1 (by simp) (by omega)]
      simp [Prod.ext_iff]
      omega
    · by_cases h3 : v < 2097152
      · have he : encodeVLQ v = [128 + v / 16384, 128 + v / 128 % 128, v % 128] := by
          simp [encodeVLQ, h1, h2, h3]
        rw [he]
        have hb0 : byteAt (pre ++ ([128 + v / 16384, 128 + v / 128 % 128, v % 128] ++ rest))
            pre.length = 128 + v / 16384 := (byteAt_append_self _ _).trans rfl
        have hb1 : byteAt (pre ++ ([128 + v / 16384, 128 + v / 128 % 128, v % 128] ++ rest))
            (pre.length + 1) = 128 + v / 128 % 128 := (byteAt_append_add _ _ 1).trans rfl
        have hb2 : byteAt (pre ++ ([128 + v / 16384, 128 + v / 128 % 128, v % 128] ++ rest))
            (pre.length + 2) = v % 128 := (byteAt_append_add _ _ 2).trans rfl
        rw [readVarQ, readVarQGo_cont 3 _ _ _ _ _ _ hb0 (by simp) (by omega)]
        rw [readVarQGo_cont 2 _ _ _ _ _ _ hb1 (by simp) (by omega)]
        rw [show pre.length + 1 + 1 = pre.length + 2 from rfl]
        rw [readVarQGo_stop 1 _ _ _ _ _ _ hb2 (by simp) (by omega)]
        simp [Prod.ext_iff]
        omega
      · have he : encodeVLQ v =
            [128 + v / 2097152, 128 + v / 16384 % 128, 128 + v / 128 % 128, v % 128] := by
          simp [encodeVLQ, h1, h2, h3]
        rw [he]
        have hb0 : byteAt (pre ++
            ([128 + v / 2097152, 128 + v / 16384 % 128, 128 + v / 128 % 128, v % 128] ++ rest))
            pre.length = 128 + v / 2097152 := (byteAt_append_self _ _).trans rfl
        have hb1 : byteAt (pre ++
            ([128 + v / 2097152, 128 + v / 16384 % 128, 128 + v / 128 % 128, v % 128] ++ rest))
            (pre.length + 1) = 128 + v / 16384 % 128 := (byteAt_append_add _ _ 1).trans rfl
        have hb2 : byteAt (pre ++
            ([128 + v / 2097152, 128 + v / 16384 % 128, 128 + v / 128 % 128, v % 128] ++ rest))
            (pre.length + 2) = 128 + v / 128 % 128 := (byteAt_append_add _ _ 2).trans rfl
        have hb3 : byteAt (pre ++
            ([128 + v / 2097152, 128 + v / 16384 % 128, 128 + v / 128 % 128, v % 128] ++ rest))
            (pre.length + 3) = v % 128 := (byteAt_append_add _ _ 3).trans rfl
        rw [readVarQ, readVarQGo_cont 3 _ _ _ _ _ _ hb0 (by simp) (by omega)]
        rw [readVarQGo_cont 2 _ _ _ _ _ _ hb1 (by simp) (by omega)]
        rw [show pre.length + 1 + 1 = pre.length + 2 from rfl]
        rw [readVarQGo_cont 1 _ _ _ _ _ _ hb2 (by simp) (by omega)]
        rw [show pre.length + 2 + 1 = pre.length + 3 from rfl]
        rw [readVarQGo_stop 0 _ _ _ _ _ _ hb3 (by simp) (by omega)]
        simp [Prod.ext_iff]
        omega

theorem decodeDelta_status (trk : KMTrk) (mfd : KMemFd) :
    ((decodeDelta trk mfd).1.1).status = trk.status := by
  unfold decodeDelta
  split
  · rfl
  · dsimp only
    split <;> rfl

theorem decodeMetaSwitch_fst (ty len : Nat) (data : List Nat) (trk2 : KMTrk) (ctx2 : KCtx) :
    (decodeMetaSwitch ty len data trk2 ctx2).1.1 = trk2 := by
  unfold decodeMetaSwitch
  split_ifs <;> rfl

theorem decodeMetaEvent_status (trk : KMTrk) (ctx : KCtx) :
    ((decodeMetaEvent trk ctx).1.1).status = trk.status := by
  unfold decodeMetaEvent
  split
  · rfl
  · dsimp only
    split
    · rfl
    · rw [decodeMetaSwitch_fst]

theorem decodeEventData_status (trk : KMTrk) (ctx : KCtx) (s l : Nat) :
    ((decodeEventData trk ctx s l).1.1).status = trk.status := by
  unfold decodeEventData
  dsimp only
  split
  · rfl
  · rw [decodeDelta_status]

/-- After the explicit-status dispatch of `decodeEvent`, the stored running
status is the new status when it is a channel status (< 0xF0) and is left
unchanged otherwise. -/
theorem decodeEventRest_status (trk : KMTrk) (ctx : KCtx) (s : Nat) (hs : 128 ≤ s) :
    ((decodeEventRest trk ctx s).1.1).status = if s < 240 then s else trk.status := by
  by_cases h240 : s < 240
  · simp only [decodeEventRest, if_neg (by omega : ¬ s < 128), if_pos h240]
    split
    · split
      · rw [decodeEventData_status]
      · rfl
    · split
      · split
        · rw [decodeEventData_status, decodeMetaEvent_status]
        · rw [decodeMetaEvent_status]
      · rw [decodeEventData_status]
  · simp only [decodeEventRest, if_neg (by omega : ¬ s < 128), if_neg h240]
    split
    · split
      · rw [decodeEventData_status]
      · rfl
    · split
      · split
        · rw [decodeEventData_status, decodeMetaEvent_status]
        · rw [decodeMetaEvent_status]
      · rw [decodeEventData_status]

theorem decodeOS2SysExEvent_status (trk : KMTrk) (ctx : KCtx) :
    ((decodeOS2SysExEvent trk ctx).1.1).status = trk.status := by
  unfold decodeOS2SysExEvent
  dsimp only
  split
  · split
    · split_ifs <;> rfl
    · rfl
  · rfl

/-- The dialect counterpart of `decodeEventRest_status`. -/
theorem decodeOS2EventRest_status (trk : KMTrk) (ctx : KCtx) (s : Nat) (hs : 128 ≤ s) :
    ((decodeOS2EventRest trk ctx s).1.1).status = if s < 240 then s else trk.status := by
  by_cases h240 : s < 240
  · simp only [decodeOS2EventRest, if_neg (by omega : ¬ s < 128), if_pos h240]
    split
    · split
      · rfl
      · rw [decodeOS2SysExEvent_status]
    · rfl
  · simp only [decodeOS2EventRest, if_neg (by omega : ¬ s < 128), if_neg h240]
    split
    · split
      · rfl
      · rw [decodeOS2SysExEvent_status]
    · rfl

/-- Four consecutive continuation bytes make `readVarQ` fail. -/
theorem readVarQ_overlong (b0 b1 b2 b3 : Nat) (pre rest : List Nat) (o : Nat)
    (h0 : 128 ≤ b0) (h1 : 128 ≤ b1) (h2 : 128 ≤ b2) (h3 : 128 ≤ b3) :
    (readVarQ ⟨pre ++ ([b0, b1, b2, b3] ++ rest), pre.length⟩ o).2 = false := by
  have hb0 : byteAt (pre ++ ([b0, b1, b2, b3] ++ rest)) pre.length = b0 :=
    (byteAt_append_self _ _).trans rfl
  have hb1 : byteAt (pre ++ ([b0, b1, b2, b3] ++ rest)) (pre.length + 1) = b1 :=
    (byteAt_append_add _ _ 1).trans rfl
  have hb2 : byteAt (pre ++ ([b0, b1, b2, b3] ++ rest)) (pre.length + 2) = b2 :=
    (byteAt_append_add _ _ 2).trans rfl
  have hb3 : byteAt (pre ++ ([b0, b1, b2, b3] ++ rest)) (pre.length + 3) = b3 :=
    (byteAt_append_add _ _ 3).trans rfl
  rw [readVarQ, readVarQGo_cont 3 _ _ _ _ _ _ hb0 (by simp) h0]
  rw [readVarQGo_cont 2 _ _ _ _ _ _ hb1 (by simp) h1]
  rw [show pre.length + 1 + 1 = pre.length + 2 from rfl]
  rw [readVarQGo_cont 1 _ _ _ _ _ _ hb2 (by simp) h2]
  rw [show pre.length + 2 + 1 = pre.length + 3 from rfl]
  rw [readVarQGo_cont 0 _ _ _ _ _ _ hb3 (by simp) h3]
  rfl

theorem forall₂_nt_refl (l : List KMTrk) : List.Forall₂ ntLeRel l l :=
  List.forall₂_same.2 (fun _ _ => le_refl _)

theorem forall₂_nt_append {a b c d : List KMTrk}
    (h1 : List.Forall₂ ntLeRel a b) (h2 : List.Forall₂ ntLeRel c d) :
    List.Forall₂ ntLeRel (a ++ c) (b ++ d) := by
  induction h1 with
  | nil => simpa using h2
  | cons hab _ ih => exact List.Forall₂.cons hab ih

theorem forall₂_nt_trans {a b c : List KMTrk}
    (h1 : List.Forall₂ ntLeRel a b) (h2 : List.Forall₂ ntLeRel b c) :
    List.Forall₂ ntLeRel a c := by
  induction h1 generalizing c with
  | nil => cases h2; exact List.Forall₂.nil
  | cons hab _ ih =>
      cases h2 with
      | cons hbc htail => exact List.Forall₂.cons (le_trans hab hbc) (ih htail)

theorem readVarQGo_val_lt : ∀ rem : Nat, rem ≤ 4 → ∀ mfd : KMemFd, ∀ off vq b : Nat,
    vq < 128 ^ (4 - rem) → (readVarQGo rem mfd off vq b).1.1 < 268435456
  | 0, _, mfd, off, vq, b, h => by
      simpa [readVarQGo] using lt_of_lt_of_le h (by norm_num)
  | rem + 1, hr, mfd, off, vq, b, h => by
      have hstep : vq * 128 + (memRead1 mfd b).1 % 128 < 128 ^ (4 - rem) := by
        have hb : (memRead1 mfd b).1 % 128 < 128 := Nat.mod_lt _ (by norm_num)
        have he : 4 - rem = (4 - (rem + 1)) + 1 := by omega
        rw [he, pow_succ]
        nlinarith
      unfold readVarQGo
      dsimp only
      split
      · exact readVarQGo_val_lt rem (by omega) _ _ _ _ hstep
      · have : 128 ^ (4 - rem) ≤ 128 ^ 4 := Nat.pow_le_pow_right (by norm_num) (by omega)
        simpa using lt_of_lt_of_le hstep (le_trans this (by norm_num))

theorem readVarQ_val_lt (mfd : KMemFd) (off : Nat) :
    (readVarQ mfd off).1.1 < 268435456 :=
  readVarQGo_val_lt 4 (by norm_num) mfd off 0 0 (by norm_num)

theorem decodeDelta_nextTick_mono (trk : KMTrk) (mfd : KMemFd)
    (h : trk.nextTick + 268435456 ≤ U32) :
    trk.nextTick ≤ ((decodeDelta trk mfd).1.1).nextTick := by
  unfold decodeDelta
  split
  · dsimp only
    simp only [END_OF_TRACK]
    simp only [U32] at h
    omega
  · dsimp only
    split
    · dsimp only
      have hv := readVarQ_val_lt mfd trk.offset
      rw [Nat.mod_eq_of_lt (by simp only [U32] at h ⊢; omega)]
      omega
    · exact le_refl _

theorem decodeMetaEvent_nextTick (trk : KMTrk) (ctx : KCtx) :
    ((decodeMetaEvent trk ctx).1.1).nextTick = trk.nextTick := by
  unfold decodeMetaEvent
  split
  · rfl
  · dsimp only
    split
    · rfl
    · rw [decodeMetaSwitch_fst]

theorem decodeEventData_nextTick_mono (trk : KMTrk) (ctx : KCtx) (s l : Nat)
    (h : trk.nextTick + 268435456 ≤ U32) :
    trk.nextTick ≤ ((decodeEventData trk ctx s l).1.1).nextTick := by
  unfold decodeEventData
  dsimp only
  split
  · exact le_refl _
  · exact decodeDelta_nextTick_mono ⟨trk.start, trk.length, trk.offset + l, trk.nextTick, trk.status⟩
      (memReadList ctx.mfd l).2 h

set_option maxHeartbeats 2000000 in
theorem decodeEventRest_nextTick_mono (trk : KMTrk) (ctx : KCtx) (s : Nat)
    (h : trk.nextTick + 268435456 ≤ U32) :
    trk.nextTick ≤ ((decodeEventRest trk ctx s).1.1).nextTick := by
  unfold decodeEventRest
  split
  · exact le_refl _
  · dsimp only
    by_cases h240 : s < 240
    · simp only [if_pos h240]
      split
      · split
        · exact decodeEventData_nextTick_mono
            ⟨trk.start, trk.length, (readVarQ ctx.mfd trk.offset).1.2.2, trk.nextTick, s⟩
            ⟨(readVarQ ctx.mfd trk.offset).1.2.1, ctx.tempo, ctx.numerator, ctx.denominator⟩
            s (readVarQ ctx.mfd trk.offset).1.1 h
        · exact le_refl _
      · split
        · split
          · have hm := decodeMetaEvent_nextTick ⟨trk.start, trk.length, trk.offset, trk.nextTick, s⟩ ctx
            exact le_trans (le_of_eq hm.symm)
              (decodeEventData_nextTick_mono
                ((decodeMetaEvent ⟨trk.start, trk.length, trk.offset, trk.nextTick, s⟩ ctx).1.1)
                ((decodeMetaEvent ⟨trk.start, trk.length, trk.offset, trk.nextTick, s⟩ ctx).1.2)
                s 0 (by rw [hm]; exact h))
          · exact le_of_eq
              (decodeMetaEvent_nextTick ⟨trk.start, trk.length, trk.offset, trk.nextTick, s⟩ ctx).symm
        · exact decodeEventData_nextTick_mono
            ⟨trk.start, trk.length, trk.offset, trk.nextTick, s⟩ ctx s
            (if s = 243 ∨ s &&& 240 = 192 ∨ s &&& 240 = 208 then 1
             else if s = 241 ∨ (244 ≤ s ∧ s ≤ 246) ∨ (248 ≤ s ∧ s ≤ 254) then 0 else 2) h
    · simp only [if_neg h240]
      split
      · split
        · exact decodeEventData_nextTick_mono
            ⟨trk.start, trk.length, (readVarQ ctx.mfd trk.offset).1.2.2, trk.nextTick, trk.status⟩
            ⟨(readVarQ ctx.mfd trk.offset).1.2.1, ctx.tempo, ctx.numerator, ctx.denominator⟩
            s (readVarQ ctx.mfd trk.offset).1.1 h
        · exact le_refl _
      · split
        · split
          · have hm := decodeMetaEvent_nextTick trk ctx
            exact le_trans (le_of_eq hm.symm)
              (decodeEventData_nextTick_mono
                ((decodeMetaEvent trk ctx).1.1) ((decodeMetaEvent trk ctx).1.2)
                s 0 (by rw [hm]; exact h))
          · exact le_of_eq (decodeMetaEvent_nextTick trk ctx).symm
        · exact decodeEventData_nextTick_mono trk ctx s
            (if s = 243 ∨ s &&& 240 = 192 ∨ s &&& 240 = 208 then 1
             else if s = 241 ∨ (244 ≤ s ∧ s ≤ 246) ∨ (248 ≤ s ∧ s ≤ 254) then 0 else 2) h

theorem decodeEvent_nextTick_mono (trk : KMTrk) (ctx : KCtx)
    (h : trk.nextTick + 268435456 ≤ U32) :
    trk.nextTick ≤ ((decodeEvent trk ctx).1.1).nextTick := by
  unfold decodeEvent
  split
  · exact le_refl _
  · split
    · exact le_refl _
    · next mfd1 heq =>
        dsimp only
        split
        · split
          · exact le_refl _
          · next mfd2 heq2 =>
              exact decodeEventRest_nextTick_mono
                ⟨trk.start, trk.length, trk.offset + 1 - 1, trk.nextTick, trk.status⟩
                ⟨mfd2, ctx.tempo, ctx.numerator, ctx.denominator⟩ trk.status h
        · exact decodeEventRest_nextTick_mono
            ⟨trk.start, trk.length, trk.offset + 1, trk.nextTick, trk.status⟩
            ⟨(memRead1 mfd1 0).2, ctx.tempo, ctx.numerator, ctx.denominator⟩ (memRead1 mfd1 0).1 h

theorem decodeOS2SysExEvent_nextTick_mono (trk : KMTrk) (ctx : KCtx)
    (h : trk.nextTick + 268435456 ≤ U32) :
    trk.nextTick ≤ ((decodeOS2SysExEvent trk ctx).1.1).nextTick := by
  unfold decodeOS2SysExEvent
  dsimp only
  split
  · split
    · split
      · dsimp only
        have hll := Nat.and_le_right (n := byteAt (os2SysExScan 9 ctx.mfd trk.offset []).1 4) (m := 127)
        have hmm := Nat.and_le_right (n := byteAt (os2SysExScan 9 ctx.mfd trk.offset []).1 5) (m := 127)
        rw [Nat.mod_eq_of_lt (by simp only [U32] at h ⊢; omega)]
        omega
      · split
        · dsimp only
          have hty := Nat.and_le_right (n := byteAt (os2SysExScan 9 ctx.mfd trk.offset []).1 3) (m := 127)
          rw [Nat.mod_eq_of_lt (by simp only [U32] at h ⊢; omega)]
          omega
        · split
          · split <;> exact le_refl _
          · exact le_refl _
    · exact le_refl _
  · exact le_refl _

set_option maxHeartbeats 2000000 in
theorem decodeOS2EventRest_nextTick_mono (trk : KMTrk) (ctx : KCtx) (s : Nat)
    (h : trk.nextTick + 268435456 ≤ U32) :
    trk.nextTick ≤ ((decodeOS2EventRest trk ctx s).1.1).nextTick := by
  unfold decodeOS2EventRest
  split
  · exact le_refl _
  · dsimp only
    by_cases h240 : s < 240
    · simp only [if_pos h240]
      split
      · split
        · dsimp only
          rw [Nat.mod_eq_of_lt (by simp only [U32] at h ⊢; omega)]
          omega
        · exact decodeOS2SysExEvent_nextTick_mono
            ⟨trk.start, trk.length,
              trk.offset + (if s &&& 240 = 192 ∨ s &&& 240 = 208 then 1 else 0), trk.nextTick, s⟩
            ⟨(memReadList ctx.mfd (if s &&& 240 = 192 ∨ s &&& 240 = 208 then 1 else 0)).2,
              ctx.tempo, ctx.numerator, ctx.denominator⟩ h
      · exact le_refl _
    · simp only [if_neg h240]
      split
      · split
        · dsimp only
          rw [Nat.mod_eq_of_lt (by simp only [U32] at h ⊢; omega)]
          omega
        · exact decodeOS2SysExEvent_nextTick_mono
            ⟨trk.start, trk.length,
              trk.offset + (if s &&& 240 = 192 ∨ s &&& 240 = 208 then 1 else 0), trk.nextTick, trk.status⟩
            ⟨(memReadList ctx.mfd (if s &&& 240 = 192 ∨ s &&& 240 = 208 then 1 else 0)).2,
              ctx.tempo, ctx.numerator, ctx.denominator⟩ h
      · exact le_refl _

theorem decodeOS2Event_nextTick_mono (trk : KMTrk) (ctx : KCtx)
    (h : trk.nextTick + 268435456 ≤ U32) :
    trk.nextTick ≤ ((decodeOS2Event trk ctx).1.1).nextTick := by
  unfold decodeOS2Event
  split
  · dsimp only
    simp only [END_OF_TRACK]
    simp only [U32] at h
    omega
  · dsimp only
    split
    · split
      · exact le_refl _
      · next mfd2 heq2 =>
          exact decodeOS2EventRest_nextTick_mono
            ⟨trk.start, trk.length, trk.offset + 1 - 1, trk.nextTick, trk.status⟩
            ⟨mfd2, ctx.tempo, ctx.numerator, ctx.denominator⟩ trk.status h
    · exact decodeOS2EventRest_nextTick_mono
        ⟨trk.start, trk.length, trk.offset + 1, trk.nextTick, trk.status⟩
        ⟨(memRead1 ctx.mfd 0).2, ctx.tempo, ctx.numerator, ctx.denominator⟩ (memRead1 ctx.mfd 0).1 h

theorem decodeTracksGo_nextTick_mono (format tick : Nat) :
    ∀ (trks : List KMTrk) (ctx : KCtx) (acc : List KMTrk) (mn : Nat),
      (∀ t ∈ trks, t.nextTick + 268435456 ≤ U32) →
      List.Forall₂ ntLeRel (acc.reverse ++ trks)
        ((decodeTracksGo format tick trks ctx acc mn).1.1)
  | [], ctx, acc, mn, h => by
      simp only [decodeTracksGo, List.append_nil]
      exact forall₂_nt_refl _
  | trk :: rest, ctx, acc, mn, h => by
      unfold decodeTracksGo
      dsimp only
      set R := (if trk.nextTick ≤ tick then
          (if format = OS2MIDI then decodeOS2Event trk ctx else decodeEvent trk ctx)
        else ((trk, ctx), true)) with hR
      have hmono : ntLeRel trk R.1.1 := by
        rw [hR]
        split
        · split
          · exact decodeOS2Event_nextTick_mono trk ctx (h trk (by simp))
          · exact decodeEvent_nextTick_mono trk ctx (h trk (by simp))
        · exact le_refl _
      split
      · have ih := decodeTracksGo_nextTick_mono format tick rest R.1.2 (R.1.1 :: acc)
          (if R.1.1.nextTick < mn then R.1.1.nextTick else mn)
          (fun t ht => h t (by simp [ht]))
        refine forall₂_nt_trans ?_ (by simpa [List.append_assoc] using ih)
        exact forall₂_nt_append (forall₂_nt_refl acc.reverse)
          (List.Forall₂.cons hmono (forall₂_nt_refl rest))
      · exact forall₂_nt_append (forall₂_nt_refl acc.reverse)
          (List.Forall₂.cons hmono (forall₂_nt_refl rest))

/-! ### Claim theorems -/

/-- Claim C10: every public entry point tolerates a NULL decoder without any
effect: `kmdecDecode(NULL, buf, n)` returns 0 for every size,
`kmdecGetDuration(NULL)`, `kmdecGetPosition(NULL)` and
`kmdecSeek(NULL, off, whence)` return -1, and `kmdecClose(NULL)` performs
no release action.  (The output buffer holds PCM whose content is not
modelled, so `kmdecDecode` is quantified over the requested size.) -/
theorem kmdecNullDecoderSafe :
    (∀ size fuel, kmdecDecode none size fuel = (none, 0)) ∧
    kmdecGetDuration none = -1 ∧
    kmdecGetPosition none = -1 ∧
    (∀ offset origin fuel, kmdecSeek none offset origin fuel = (none, -1)) ∧
    kmdecClose none = [] :=
  ⟨fun _ _ => rfl, rfl, rfl, fun _ _ _ => rfl, rfl⟩

/-- Claim C1: on every scheduler call in which time advances — the minimum
`nextTick` over the tracks after step 1 exceeds the current tick (and is
not the `END_OF_TRACK` end-of-stream sentinel) — the step advances `tick`
by exactly the spec's delta (`ticks_per_sec = division·CLOCK_BASE/tempo`,
`Δ = ticks_per_sec·clock_unit/CLOCK_BASE`, zero replaced by 1, clamped to
`min_next − tick`) and `clock` by `CLOCK_BASE·Δ/ticks_per_sec`, in both
play and seek mode. -/
theorem decodeAdvanceFollowsSpec (dec : KMDec) (mode : Nat)
    (trks : List KMTrk) (ctx : KCtx) (mn : Nat)
    (h : decodeTracksGo dec.header.format dec.tick dec.tracks
          ⟨dec.mfd, dec.tempo, dec.numerator, dec.denominator⟩ [] END_OF_TRACK
         = ((trks, ctx, mn), true))
    (hend : mn ≠ END_OF_TRACK) (hadv : dec.tick < mn) :
    (decode dec mode).2 = true ∧
    (decode dec mode).1.tick =
      dec.tick + specDelta dec.header.division ctx.tempo dec.clockUnit dec.tick mn ∧
    (decode dec mode).1.clock =
      dec.clock + CLOCK_BASE * specDelta dec.header.division ctx.tempo dec.clockUnit dec.tick mn
        / specTicksPerSec dec.header.division ctx.tempo := by
  by_cases hmode : mode = DECODE_PLAY <;>
  simp [decode, h, hmode, hend, hadv, specDelta, specTicksPerSec]

/-- Witness for C1: the scheduler call on `c1Dec` (single track waiting at
tick 5) advances tick and clock per the spec formulas. -/
theorem decodeAdvanceFollowsSpecWitness :
    (decode c1Dec 0).2 = true ∧
    (decode c1Dec 0).1.tick =
      c1Dec.tick + specDelta c1Dec.header.division c1Ctx.tempo c1Dec.clockUnit c1Dec.tick 5 ∧
    (decode c1Dec 0).1.clock =
      c1Dec.clock + CLOCK_BASE * specDelta c1Dec.header.division c1Ctx.tempo c1Dec.clockUnit c1Dec.tick 5
        / specTicksPerSec c1Dec.header.division c1Ctx.tempo :=
  decodeAdvanceFollowsSpec c1Dec 0 c1Trks c1Ctx 5 (by decide) (by decide) (by decide)

/-- Counterexample to C5 as stated: in `c5Dec` the single track fires at
tick 0 (its `nextTick ≤ tick`), the scheduler call succeeds, and after
step 1 the track's `nextTick` is neither strictly greater than the current
tick nor `END_OF_TRACK` — the event's following delta is zero, so
`nextTick` equals the tick again. -/
theorem decodeStepStrictCounterexample :
    ((c5Dec.tracks.getD 0 ⟨0, 0, 0, 0, 0⟩).nextTick ≤ c5Dec.tick) ∧
    (decode c5Dec 0).2 = true ∧
    ¬ (c5Dec.tick < (((decode c5Dec 0).1.tracks).getD 0 ⟨0, 0, 0, 0, 0⟩).nextTick ∨
       (((decode c5Dec 0).1.tracks).getD 0 ⟨0, 0, 0, 0, 0⟩).nextTick = END_OF_TRACK) := by
  decide

/-- Claim C5 (amended): after the step-1 loop of a scheduler call, every
track's `nextTick` is at least its value before the call (so a track that
fired has `nextTick ≥ tick`, with equality possible when the following
delta is zero, or was marked `END_OF_TRACK`); strict increase past the
current tick is not guaranteed.  The bound keeps the `uint32_t`
accumulation below the wrap-around. -/
theorem decodeStepNextTickMonotone (dec : KMDec) (mode : Nat)
    (h : ∀ t ∈ dec.tracks, t.nextTick + 268435456 ≤ U32) :
    List.Forall₂ ntLeRel dec.tracks ((decode dec mode).1.tracks) := by
  have hgo := decodeTracksGo_nextTick_mono dec.header.format dec.tick dec.tracks
    ⟨dec.mfd, dec.tempo, dec.numerator, dec.denominator⟩ [] END_OF_TRACK h
  simp only [List.reverse_nil, List.nil_append] at hgo
  unfold decode
  dsimp only
  split
  · split
    · exact hgo
    · split
      · split <;> exact hgo
      · exact hgo
  · exact hgo

/-- Witness for the amended C5: the step on `c5Dec` leaves its track's
`nextTick` no smaller than before. -/
theorem decodeStepNextTickMonotoneWitness :
    List.Forall₂ ntLeRel c5Dec.tracks ((decode c5Dec 0).1.tracks) :=
  decodeStepNextTickMonotone c5Dec 0 (by decide)

/-- Counterexample to C6 as stated: a track chunk of length 4 starting
with a meta event `FF 01 05` whose declared payload length 5 extends past
the chunk end; `decodeEvent` succeeds and leaves `offset = 8 > length = 4`
(the declared length is added to the offset unconditionally). -/
theorem trackOffsetBoundCounterexample :
    (decodeEvent ⟨0, 4, 0, 0, 0⟩ ⟨⟨[0xFF, 0x01, 0x05, 1, 2, 3, 4, 5, 9], 0⟩, 500000, 4, 4⟩).2
      = true ∧
    ((decodeEvent ⟨0, 4, 0, 0, 0⟩ ⟨⟨[0xFF, 0x01, 0x05, 1, 2, 3, 4, 5, 9], 0⟩, 500000, 4, 4⟩).1.1).offset
      > (⟨0, 4, 0, 0, 0⟩ : KMTrk).length := by
  decide

/-- Claim C6 (amended): `offset ≤ length` is not an unconditional
invariant: a meta event advances `offset` by exactly
`1 + |VLQ(ll)| + ll` for its declared length `ll`, so `offset` stays within
the chunk exactly when the declared payload fits, and an event whose
declared payload extends past the chunk end leaves `offset > length`;
whenever `offset ≥ length`, the next `decodeDelta` immediately marks the
track `END_OF_TRACK` without touching `offset`. -/
theorem trackOffsetBoundAmended :
    (∀ trk : KMTrk, ∀ mfd : KMemFd, trk.length ≤ trk.offset →
      decodeDelta trk mfd = (({ trk with nextTick := END_OF_TRACK }, mfd), true)) ∧
    (∀ pre rest : List Nat, ∀ t l tempo num den : Nat, ∀ trk : KMTrk,
      trk.offset < trk.length → l < 268435456 →
      ((decodeMetaEvent trk
          ⟨⟨pre ++ ([t] ++ (encodeVLQ l ++ rest)), pre.length⟩, tempo, num, den⟩).1.1).offset
        = trk.offset + 1 + (encodeVLQ l).length + l) ∧
    (∀ pre rest : List Nat, ∀ t l tempo num den : Nat, ∀ trk : KMTrk,
      trk.offset < trk.length → l < 268435456 →
      trk.offset + 1 + (encodeVLQ l).length + l ≤ trk.length →
      ((decodeMetaEvent trk
          ⟨⟨pre ++ ([t] ++ (encodeVLQ l ++ rest)), pre.length⟩, tempo, num, den⟩).1.1).offset
        ≤ trk.length) := by
  have hmeta : ∀ pre rest : List Nat, ∀ t l tempo num den : Nat, ∀ trk : KMTrk,
      trk.offset < trk.length → l < 268435456 →
      ((decodeMetaEvent trk
          ⟨⟨pre ++ ([t] ++ (encodeVLQ l ++ rest)), pre.length⟩, tempo, num, den⟩).1.1).offset
        = trk.offset + 1 + (encodeVLQ l).length + l := by
    intro pre rest t l tempo num den trk hoff hl
    unfold decodeMetaEvent
    rw [if_neg (by omega)]
    dsimp only
    rw [show memRead1 ⟨pre ++ ([t] ++ (encodeVLQ l ++ rest)), pre.length⟩ 0 =
        (t, ⟨pre ++ ([t] ++ (encodeVLQ l ++ rest)), pre.length + 1⟩) by
      unfold memRead1
      rw [if_pos (by simp)]
      rw [byteAt_append_self]
      rfl]
    dsimp only
    have hassoc : pre ++ ([t] ++ (encodeVLQ l ++ rest)) = (pre ++ [t]) ++ (encodeVLQ l ++ rest) := by
      simp
    have hlen1 : pre.length + 1 = (pre ++ [t]).length := by simp
    rw [hassoc, hlen1, readVarQ_encode l (pre ++ [t]) rest _ hl]
    dsimp only
    rw [if_neg (by simp)]
    rw [decodeMetaSwitch_fst]
  refine ⟨fun trk mfd h => ?_, hmeta, fun pre rest t l tempo num den trk hoff hl hfit => ?_⟩
  · unfold decodeDelta
    rw [if_pos h]
  · rw [hmeta pre rest t l tempo num den trk hoff hl]
    omega

/-- Witness for the amended C6: `decodeDelta` on an overrun track marks
`END_OF_TRACK`, and a meta event `FF 01 02` that fits inside a 10-byte
chunk leaves `offset = 5 ≤ 10`. -/
theorem trackOffsetBoundAmendedWitness :
    decodeDelta ⟨0, 4, 5, 0, 0⟩ ⟨[0x00], 0⟩ =
      (({ (⟨0, 4, 5, 0, 0⟩ : KMTrk) with nextTick := END_OF_TRACK }, ⟨[0x00], 0⟩), true) ∧
    ((decodeMetaEvent ⟨0, 10, 1, 0, 0⟩
        ⟨⟨[0xFF] ++ ([1] ++ (encodeVLQ 2 ++ [0, 0])), [(0xFF : Nat)].length⟩, 500000, 4, 4⟩).1.1).offset
      ≤ (⟨0, 10, 1, 0, 0⟩ : KMTrk).length :=
  ⟨trackOffsetBoundAmended.1 ⟨0, 4, 5, 0, 0⟩ ⟨[0x00], 0⟩ (by decide),
   trackOffsetBoundAmended.2.2 [0xFF] [0, 0] 1 2 500000 4 4 ⟨0, 10, 1, 0, 0⟩
     (by decide) (by decide) (by decide)⟩

/-- Counterexample to C4 as stated: `dlFile` has byte 8 (`qq`) equal to
`0x00`, so it does not match the claim's pattern (`qq = F7`), yet
`initMidiInfo` takes the real-time capture dialect branch (the code checks
only bytes 0–6 and byte 9). -/
theorem initMidiInfoDialectCounterexample :
    specDialectCond dlFile = false ∧
    (initMidiInfo dlFile).map (fun r => r.1.format) = some OS2MIDI := by
  decide

/-- Claim C4 (amended): `open` takes the dialect branch exactly when bytes
0–6 match `F0 00 00 3A 03 01 18` and byte 9 is `F7` — byte 8 (`qq`) is not
examined.  In that branch, with `pp` = byte 7 masked to 7 bits, the
division is `24 / ((pp & 0x3F) + 1) · 3)` when bit 6 of `pp` is set and
`24 · (pp + 1)` otherwise, parsing fails exactly when that division is 0,
and otherwise the single dialect track spans the rest of the file. -/
theorem initMidiInfoDialectAmended (bytes : List Nat) :
    (dialectCheck bytes = true →
      (specDialectDivision (byteAt bytes 7 &&& 0x7F) = 0 → initMidiInfo bytes = none) ∧
      (specDialectDivision (byteAt bytes 7 &&& 0x7F) ≠ 0 →
        initMidiInfo bytes =
          some (⟨OS2MIDI, 1, specDialectDivision (byteAt bytes 7 &&& 0x7F)⟩,
                [⟨10, bytes.length - 10, 0, 0, 0⟩], ⟨bytes, 10⟩))) ∧
    (dialectCheck bytes = false →
      ∀ r ∈ initMidiInfo bytes, r.1.format ≠ OS2MIDI) := by
  have hdd0 : ∀ pp : Nat,
      (if pp &&& 64 = 0 then 24 * (pp + 1) else 24 / (((pp &&& 63) + 1) * 3)) =
        specDialectDivision pp := by
    intro pp
    simp [specDialectDivision, ite_not]
  refine ⟨fun hd => ⟨fun hz => ?_, fun hnz => ?_⟩, fun hd => ?_⟩
  · simp only [initMidiInfo, memReadList, memTell, memSeek, List.drop_zero,
      dialectCheck_padTake, hd, if_true, byteAt_padTake]
    norm_num
    rw [hdd0]
    simp [hz]
  · have h10 : 10 ≤ bytes.length := by
      simp [dialectCheck] at hd
      have := lt_length_of_byteAt_ne bytes 9 (by rw [hd.2]; decide)
      omega
    have hlen : (bytes.take 10).length = 10 := by simp; omega
    simp only [initMidiInfo, memReadList, memTell, memSeek, List.drop_zero,
      dialectCheck_padTake, hd, if_true, byteAt_padTake, hlen]
    norm_num
    rw [hdd0]
    refine ⟨hnz, ?_⟩
    have h1 : ¬((bytes.length : Int) < 0) := by omega
    have h2 : ¬(bytes.length < 10) := by omega
    simp [h1, h2]
  · intro r hr
    rw [Option.mem_def] at hr
    simp only [initMidiInfo, memReadList, memTell, memSeek, List.drop_zero,
      dialectCheck_padTake, hd, Bool.false_eq_true, if_false] at hr
    split at hr
    · split at hr
      · exact absurd hr (by simp)
      · next hfmt =>
          split at hr
          · exact absurd hr (by simp)
          · split at hr
            · exact absurd hr (by simp)
            · next trks mfd2 heq =>
                rw [Option.some_inj] at hr
                subst hr
                simp only [OS2MIDI]
                omega
    · exact absurd hr (by simp)

/-- Witness for the amended C4: on `dlFile` (dialect prefix with `pp = 0`)
the dialect branch is taken with division 24, and on `s1File` (an SMF
file) the parsed header is not the dialect format. -/
theorem initMidiInfoDialectAmendedWitness :
    initMidiInfo dlFile =
      some (⟨OS2MIDI, 1, specDialectDivision (byteAt dlFile 7 &&& 0x7F)⟩,
            [⟨10, dlFile.length - 10, 0, 0, 0⟩], ⟨dlFile, 10⟩) ∧
    ((⟨0, 1, 0x60⟩, [⟨22, 4, 1, 0, 0⟩], ⟨s1File, 26⟩) :
        KMThd × List KMTrk × KMemFd).1.format ≠ OS2MIDI :=
  ⟨((initMidiInfoDialectAmended dlFile).1 (by decide)).2 (by decide),
   (initMidiInfoDialectAmended s1File).2 (by decide) _ (by decide)⟩

/-- Claim C8: for every 28-bit unsigned `v`, `readVarQ` decodes the
reference VLQ encoding of `v` (placed anywhere in the buffer, at the
current fd position) back to `v`, advancing the track offset by exactly the
number of encoded bytes, and an input whose first four bytes all have the
high bit set is rejected with an error. -/
theorem readVarQRoundTrip :
    (∀ v : Nat, ∀ pre rest : List Nat, ∀ o : Nat, v < 268435456 →
      readVarQ ⟨pre ++ (encodeVLQ v ++ rest), pre.length⟩ o =
        ((v, ⟨pre ++ (encodeVLQ v ++ rest), pre.length + (encodeVLQ v).length⟩,
          o + (encodeVLQ v).length), true)) ∧
    (∀ b0 b1 b2 b3 : Nat, ∀ pre rest : List Nat, ∀ o : Nat,
      128 ≤ b0 → 128 ≤ b1 → 128 ≤ b2 → 128 ≤ b3 →
      (readVarQ ⟨pre ++ ([b0, b1, b2, b3] ++ rest), pre.length⟩ o).2 = false) :=
  ⟨readVarQ_encode, readVarQ_overlong⟩

/-- Witness for C8: decoding the 3-byte encoding of 123456 from track
offset 7, and rejecting an all-continuation 4-byte prefix. -/
theorem readVarQRoundTripWitness :
    readVarQ ⟨[0x00] ++ (encodeVLQ 123456 ++ [0x55]), [(0x00 : Nat)].length⟩ 7 =
      ((123456, ⟨[0x00] ++ (encodeVLQ 123456 ++ [0x55]),
                 [(0x00 : Nat)].length + (encodeVLQ 123456).length⟩,
        7 + (encodeVLQ 123456).length), true) ∧
    (readVarQ ⟨[] ++ ([0x80, 0xFF, 0x81, 0x90] ++ []), ([] : List Nat).length⟩ 0).2 = false :=
  ⟨readVarQRoundTrip.1 123456 [0x00] [0x55] 7 (by decide),
   readVarQRoundTrip.2 0x80 0xFF 0x81 0x90 [] [] 0 (by decide) (by decide) (by decide) (by decide)⟩

/-- Claim C9: `open` rejects (returns null) whenever the file is neither
the dialect signature nor an `"MThd" 00 00 00 06` header, whenever the
big-endian format field is 2 or more, and whenever the top bit of the
16-bit division field is set — in particular it rejects the S6 file whose
division bytes are `0x80 0x00`. -/
theorem initMidiInfoRejects :
    (∀ bytes : List Nat, dialectCheck bytes = false → mthdCheck bytes = false →
      initMidiInfo bytes = none) ∧
    (∀ bytes : List Nat, mthdCheck bytes = true →
      2 ≤ byteAt bytes 8 * 256 + byteAt bytes 9 → initMidiInfo bytes = none) ∧
    (∀ bytes : List Nat, mthdCheck bytes = true →
      byteAt bytes 8 * 256 + byteAt bytes 9 < 2 →
      byteAt bytes 12 < 256 → byteAt bytes 13 < 256 → 128 ≤ byteAt bytes 12 →
      initMidiInfo bytes = none) ∧
    openDec s6File aiStd 100 = none := by
  refine ⟨fun bytes hd hm => ?_, fun bytes hm hf => ?_,
          fun bytes hm hf hb12 hb13 htop => ?_, by decide⟩
  · simp only [initMidiInfo, memReadList, List.drop_zero, dialectCheck_padTake, hd,
      Bool.false_eq_true, if_false, mthdCheck_padTake, hm]
  · have hd : dialectCheck bytes = false := by
      have hm' := hm
      simp [mthdCheck] at hm'
      simp [dialectCheck, hm'.1.1.1.1.1.1.1]
    simp only [initMidiInfo, memReadList, List.drop_zero, dialectCheck_padTake, hd,
      Bool.false_eq_true, if_false, mthdCheck_padTake, hm, if_true]
    rw [byteAt_hdr_low bytes _ 8 (by omega)]
    rw [byteAt_hdr_low bytes _ 9 (by omega)]
    rw [if_pos hf]
  · have hd : dialectCheck bytes = false := by
      have hm' := hm
      simp [mthdCheck] at hm'
      simp [dialectCheck, hm'.1.1.1.1.1.1.1]
    simp only [initMidiInfo, memReadList, List.drop_zero, Nat.zero_add, dialectCheck_padTake, hd,
      Bool.false_eq_true, if_false, mthdCheck_padTake, hm, if_true]
    rw [byteAt_hdr_low bytes _ 8 (by omega)]
    rw [byteAt_hdr_low bytes _ 9 (by omega)]
    rw [if_neg (by omega)]
    rw [byteAt_hdr_high bytes 2 (by omega)]
    rw [byteAt_hdr_high bytes 3 (by omega)]
    rw [show (10 : Nat) + 2 = 12 by norm_num, show (10 : Nat) + 3 = 13 by norm_num]
    have hdv : ((byteAt bytes 12 * 256 + byteAt bytes 13) >>> 15) &&& 1 = 1 := by
      rw [Nat.shiftRight_eq_div_pow]
      have h1 : (byteAt bytes 12 * 256 + byteAt bytes 13) / 2 ^ 15 = 1 := by
        norm_num
        omega
      rw [h1]
      decide
    rw [if_pos hdv]

/-- Counterexample to C7 as stated: a track whose stored running status is
`0x90` decodes an explicit System-common status byte `0xF8` (≥ 0xF0); the
call succeeds but the stored running status is *not* reset — it is still
`0x90`. -/
theorem runningStatusResetCounterexample :
    ((decodeEvent ⟨0, 2, 0, 0, 0x90⟩ ⟨⟨[0xF8, 0x00], 0⟩, 500000, 4, 4⟩).1.1).status = 0x90 ∧
    (decodeEvent ⟨0, 2, 0, 0, 0x90⟩ ⟨⟨[0xF8, 0x00], 0⟩, 500000, 4, 4⟩).2 = true := by
  decide

/-- Claim C7 (amended): whenever the event loop (SMF or dialect) reads an
explicit status byte `b ≥ 0x80`, a status below 0xF0 becomes the track's
stored running status, and any System-common status ≥ 0xF0 leaves the
stored running status unchanged (it is not reset). -/
theorem runningStatusStored :
    (∀ trk : KMTrk, ∀ ctx : KCtx, ∀ b : Nat,
      trk.offset < trk.length →
      trk.start + trk.offset < ctx.mfd.buffer.length →
      byteAt ctx.mfd.buffer (trk.start + trk.offset) = b → 128 ≤ b →
      ((decodeEvent trk ctx).1.1).status = if b < 240 then b else trk.status) ∧
    (∀ trk : KMTrk, ∀ ctx : KCtx, ∀ b : Nat,
      trk.offset < trk.length →
      ctx.mfd.offset < ctx.mfd.buffer.length →
      byteAt ctx.mfd.buffer ctx.mfd.offset = b → 128 ≤ b →
      ((decodeOS2Event trk ctx).1.1).status = if b < 240 then b else trk.status) := by
  constructor
  · intro trk ctx b hoff hpos hb hhi
    unfold decodeEvent
    rw [if_neg (by omega)]
    have hseek : memSeek ctx.mfd ((trk.start + trk.offset : Nat) : Int) 0 =
        some ⟨ctx.mfd.buffer, trk.start + trk.offset⟩ := by
      unfold memSeek
      simp
      omega
    rw [hseek]
    dsimp only
    rw [show memRead1 ⟨ctx.mfd.buffer, trk.start + trk.offset⟩ 0 =
        (b, ⟨ctx.mfd.buffer, trk.start + trk.offset + 1⟩) by
      unfold memRead1
      rw [if_pos (by simpa using hpos)]
      simp [hb]]
    dsimp only
    rw [if_neg (by omega)]
    rw [decodeEventRest_status _ _ _ hhi]
  · intro trk ctx b hoff hpos hb hhi
    unfold decodeOS2Event
    rw [if_neg (by omega)]
    dsimp only
    rw [show memRead1 ctx.mfd 0 = (b, { ctx.mfd with offset := ctx.mfd.offset + 1 }) by
      unfold memRead1
      rw [if_pos hpos]
      simp [hb]]
    dsimp only
    rw [if_neg (by omega)]
    rw [decodeOS2EventRest_status _ _ _ hhi]

/-- Witness for the amended C7: a note-on status `0x90` becomes the stored
running status in the SMF loop, and a program-change status `0xC5` becomes
the stored running status in the dialect loop. -/
theorem runningStatusStoredWitness :
    ((decodeEvent ⟨0, 4, 0, 0, 0⟩ ⟨⟨[0x90, 0x3C, 0x40, 0x00], 0⟩, 500000, 4, 4⟩).1.1).status =
      (if (0x90 : Nat) < 240 then 0x90 else (⟨0, 4, 0, 0, 0⟩ : KMTrk).status) ∧
    ((decodeOS2Event ⟨0, 2, 0, 0, 0⟩ ⟨⟨[0xC5, 0x07], 0⟩, 500000, 4, 4⟩).1.1).status =
      (if (0xC5 : Nat) < 240 then 0xC5 else (⟨0, 2, 0, 0, 0⟩ : KMTrk).status) :=
  ⟨runningStatusStored.1 ⟨0, 4, 0, 0, 0⟩ ⟨⟨[0x90, 0x3C, 0x40, 0x00], 0⟩, 500000, 4, 4⟩ 0x90
      (by decide) (by decide) (by decide) (by decide),
   runningStatusStored.2 ⟨0, 2, 0, 0, 0⟩ ⟨⟨[0xC5, 0x07], 0⟩, 500000, 4, 4⟩ 0xC5
      (by decide) (by decide) (by decide) (by decide)⟩

/-- Witness for C9: a one-byte garbage file, a format-2 file, and the
SMPTE-division S6 file are all rejected by the parser. -/
theorem initMidiInfoRejectsWitness :
    initMidiInfo [0x00] = none ∧ initMidiInfo f2File = none ∧ initMidiInfo s6File = none :=
  ⟨initMidiInfoRejects.1 [0x00] (by decide) (by decide),
   initMidiInfoRejects.2.1 f2File (by decide) (by decide),
   initMidiInfoRejects.2.2.1 s6File (by decide) (by decide) (by decide) (by decide) (by decide)⟩

/-- The source's clamping chain (wrap-around check, then clamp to
`duration`) equals the spec's `max 0 (min duration ...)` target, for
realistic clock values and millisecond offsets. -/
theorem seekTargetEq (oc dur : Nat) (offset : Int)
    (hoc : oc ≤ 2 ^ 62) (hlo : -(2 ^ 31) ≤ offset) (hhi : offset ≤ 2 ^ 31) :
    (if offset < 0 ∧
        oc < (((oc : Int) + Int.tdiv ((CLOCK_BASE : Int) * offset) 1000).emod (U64 : Int)).toNat
     then 0
     else if dur < (((oc : Int) + Int.tdiv ((CLOCK_BASE : Int) * offset) 1000).emod (U64 : Int)).toNat
     then dur
     else (((oc : Int) + Int.tdiv ((CLOCK_BASE : Int) * offset) 1000).emod (U64 : Int)).toNat)
      = specSeekTarget oc dur offset := by
  have hK : Int.tdiv ((CLOCK_BASE : Int) * offset) 1000 = 1000 * offset := by
    rw [show (CLOCK_BASE : Int) * offset = 1000 * (1000 * offset) by
      unfold CLOCK_BASE
      push_cast
      ring]
    exact Int.mul_tdiv_cancel_left _ (by norm_num)
  rw [specSeekTarget, hK]
  unfold U64
  rw [show ((18446744073709551616 : Nat) : Int) = (18446744073709551616 : Int) from by norm_cast]
  simp only [show ∀ a b : Int, Int.emod a b = a % b from fun _ _ => rfl]
  split_ifs <;> omega

set_option maxRecDepth 10000 in
/-- Claim C3: for every decoder and `kmdecSeek offset origin` with origin in
BEGIN/CURRENT/END (0/1/2), the call resolves the absolute target clock
against the origin, clamps it to `[0, duration]` exactly as the spec's
`max 0 (min duration (origin_clock + 1000·offset))` (in µs), resets first
exactly when the clamped target is earlier than the current clock, runs the
seek loop, and returns 0 exactly when the target clock was reached; and
concretely, after opening the S2 file, `seek(10000, BEGIN)` returns 0 and
afterwards `position()` equals `duration()`. -/
theorem kmdecSeekFollowsSpec (d : KMDec) (offset origin : Int) (fuel : Nat)
    (hc : d.clock ≤ 2 ^ 62) (hd : d.duration ≤ 2 ^ 62)
    (hlo : -(2 ^ 31) ≤ offset) (hhi : offset ≤ 2 ^ 31)
    (ho : origin = 0 ∨ origin = 1 ∨ origin = 2) :
    (kmdecSeek (some d) offset origin fuel =
      (let oc : Nat := if origin = 0 then 0 else if origin = 1 then d.clock else d.duration
       let tgt := specSeekTarget oc d.duration offset
       let d1 := if tgt < d.clock then (reset d).1 else d
       let d2 := seekLoop fuel tgt d1
       (some d2, if tgt ≤ d2.clock then 0 else -1))) ∧
    (openDec s2File aiStd 400).isSome = true ∧
    (kmdecSeek (openDec s2File aiStd 400) 10000 0 400).2 = 0 ∧
    kmdecGetPosition (kmdecSeek (openDec s2File aiStd 400) 10000 0 400).1 =
      kmdecGetDuration (kmdecSeek (openDec s2File aiStd 400) 10000 0 400).1 := by
  refine ⟨?_, by decide, by decide, by decide⟩
  rcases ho with h | h | h <;> subst h
  · unfold kmdecSeek
    dsimp only
    rw [show (if (0 : Int) = 0 then some (0 : Nat)
        else if (0 : Int) = 1 then some d.clock
        else if (0 : Int) = 2 then some d.duration else none) = some 0 by norm_num]
    dsimp only
    rw [show (if (0 : Int) = 0 then (0 : Nat)
        else if (0 : Int) = 1 then d.clock else d.duration) = 0 by norm_num]
    rw [seekTargetEq 0 d.duration offset (by norm_num) hlo hhi]
  · unfold kmdecSeek
    dsimp only
    rw [show (if (1 : Int) = 0 then some (0 : Nat)
        else if (1 : Int) = 1 then some d.clock
        else if (1 : Int) = 2 then some d.duration else none) = some d.clock by norm_num]
    dsimp only
    rw [show (if (1 : Int) = 0 then (0 : Nat)
        else if (1 : Int) = 1 then d.clock else d.duration) = d.clock by norm_num]
    rw [seekTargetEq d.clock d.duration offset hc hlo hhi]
  · unfold kmdecSeek
    dsimp only
    rw [show (if (2 : Int) = 0 then some (0 : Nat)
        else if (2 : Int) = 1 then some d.clock
        else if (2 : Int) = 2 then some d.duration else none) = some d.duration by norm_num]
    dsimp only
    rw [show (if (2 : Int) = 0 then (0 : Nat)
        else if (2 : Int) = 1 then d.clock else d.duration) = d.duration by norm_num]
    rw [seekTargetEq d.duration d.duration offset hd hlo hhi]

/-- Witness for C3 at a concrete decoder: a zero-offset BEGIN seek on the
concrete decoder `c1Dec` matches the specification form. -/
theorem kmdecSeekFollowsSpecWitness :
    kmdecSeek (some c1Dec) 0 0 0 =
      (let oc : Nat := if (0 : Int) = 0 then 0
                       else if (0 : Int) = 1 then c1Dec.clock else c1Dec.duration
       let tgt := specSeekTarget oc c1Dec.duration 0
       let d1 := if tgt < c1Dec.clock then (reset c1Dec).1 else c1Dec
       let d2 := seekLoop 0 tgt d1
       (some d2, if tgt ≤ d2.clock then 0 else -1)) :=
  (kmdecSeekFollowsSpec c1Dec 0 0 0 (by decide) (by decide) (by norm_num)
    (by norm_num) (Or.inl rfl)).1

/-! ### The clock/duration invariant (C2): helper lemmas -/


theorem memRead1_buffer (m : KMemFd) (s : Nat) : ((memRead1 m s).2).buffer = m.buffer := by
  unfold memRead1
  split <;> rfl

theorem memReadList_buffer (m : KMemFd) (n : Nat) : ((memReadList m n).2).buffer = m.buffer := rfl

theorem memSeek_buffer (m m' : KMemFd) (o : Int) (g : Nat) (h : memSeek m o g = some m') :
    m'.buffer = m.buffer := by
  unfold memSeek at h
  dsimp only at h
  split at h
  · exact absurd h (by simp)
  · split at h
    · exact absurd h (by simp)
    · rw [Option.some_inj] at h
      subst h
      rfl

theorem readVarQGo_buffer (rem : Nat) : ∀ (m : KMemFd) (off vq b : Nat),
    (((readVarQGo rem m off vq b).1.2.1)).buffer = m.buffer := by
  induction rem with
  | zero => intro m off vq b; rfl
  | succ n ih =>
      intro m off vq b
      unfold readVarQGo
      dsimp only
      split
      · rw [ih, memRead1_buffer]
      · exact memRead1_buffer m b

theorem readVarQ_buffer (m : KMemFd) (off : Nat) :
    (((readVarQ m off).1.2.1)).buffer = m.buffer :=
  readVarQGo_buffer 4 m off 0 0

theorem decodeDelta_start (trk : KMTrk) (m : KMemFd) :
    ((decodeDelta trk m).1.1).start = trk.start := by
  unfold decodeDelta
  split
  · rfl
  · dsimp only
    split <;> rfl

theorem decodeDelta_length (trk : KMTrk) (m : KMemFd) :
    ((decodeDelta trk m).1.1).length = trk.length := by
  unfold decodeDelta
  split
  · rfl
  · dsimp only
    split <;> rfl

theorem decodeDelta_buffer (trk : KMTrk) (m : KMemFd) :
    ((decodeDelta trk m).1.2).buffer = m.buffer := by
  unfold decodeDelta
  split
  · rfl
  · dsimp only
    split
    · exact readVarQ_buffer m trk.offset
    · exact readVarQ_buffer m trk.offset

theorem decodeMetaSwitch_mfd (ty len : Nat) (data : List Nat) (trk2 : KMTrk) (ctx2 : KCtx) :
    (((decodeMetaSwitch ty len data trk2 ctx2).1.2)).mfd = ctx2.mfd := by
  unfold decodeMetaSwitch
  split_ifs <;> rfl

theorem decodeMetaEvent_start (trk : KMTrk) (ctx : KCtx) :
    ((decodeMetaEvent trk ctx).1.1).start = trk.start := by
  unfold decodeMetaEvent
  split
  · rfl
  · dsimp only
    split
    · rfl
    · rw [decodeMetaSwitch_fst]

theorem decodeMetaEvent_length (trk : KMTrk) (ctx : KCtx) :
    ((decodeMetaEvent trk ctx).1.1).length = trk.length := by
  unfold decodeMetaEvent
  split
  · rfl
  · dsimp only
    split
    · rfl
    · rw [decodeMetaSwitch_fst]

theorem decodeMetaEvent_buffer (trk : KMTrk) (ctx : KCtx) :
    ((decodeMetaEvent trk ctx).1.2).mfd.buffer = ctx.mfd.buffer := by
  unfold decodeMetaEvent
  split
  · rfl
  · dsimp only
    split
    · try dsimp only
      rw [readVarQ_buffer, memRead1_buffer]
    · rw [decodeMetaSwitch_mfd]
      dsimp only
      rw [memReadList_buffer, readVarQ_buffer, memRead1_buffer]

theorem decodeEventData_start (trk : KMTrk) (ctx : KCtx) (s l : Nat) :
    ((decodeEventData trk ctx s l).1.1).start = trk.start := by
  unfold decodeEventData
  dsimp only
  split
  · rfl
  · rw [decodeDelta_start]

theorem decodeEventData_length (trk : KMTrk) (ctx : KCtx) (s l : Nat) :
    ((decodeEventData trk ctx s l).1.1).length = trk.length := by
  unfold decodeEventData
  dsimp only
  split
  · rfl
  · rw [decodeDelta_length]

theorem decodeEventData_buffer (trk : KMTrk) (ctx : KCtx) (s l : Nat) :
    ((decodeEventData trk ctx s l).1.2).mfd.buffer = ctx.mfd.buffer := by
  unfold decodeEventData
  dsimp only
  split
  · exact memReadList_buffer _ _
  · try dsimp only
    rw [decodeDelta_buffer]
    try dsimp only
    rw [memReadList_buffer]

theorem decodeEventRest_start (trk : KMTrk) (ctx : KCtx) (s : Nat) :
    ((decodeEventRest trk ctx s).1.1).start = trk.start := by
  by_cases hlo : s < 128
  · simp only [decodeEventRest, if_pos hlo]
  · by_cases h240 : s < 240
    · simp only [decodeEventRest, if_neg hlo, if_pos h240]
      split
      · split
        · rw [decodeEventData_start]
        · rfl
      · split
        · split
          · rw [decodeEventData_start, decodeMetaEvent_start]
          · rw [decodeMetaEvent_start]
        · rw [decodeEventData_start]
    · simp only [decodeEventRest, if_neg hlo, if_neg h240]
      split
      · split
        · rw [decodeEventData_start]
        · rfl
      · split
        · split
          · rw [decodeEventData_start, decodeMetaEvent_start]
          · rw [decodeMetaEvent_start]
        · rw [decodeEventData_start]

theorem decodeEventRest_length (trk : KMTrk) (ctx : KCtx) (s : Nat) :
    ((decodeEventRest trk ctx s).1.1).length = trk.length := by
  by_cases hlo : s < 128
  · simp only [decodeEventRest, if_pos hlo]
  · by_cases h240 : s < 240
    · simp only [decodeEventRest, if_neg hlo, if_pos h240]
      split
      · split
        · rw [decodeEventData_length]
        · rfl
      · split
        · split
          · rw [decodeEventData_length, decodeMetaEvent_length]
          · rw [decodeMetaEvent_length]
        · rw [decodeEventData_length]
    · simp only [decodeEventRest, if_neg hlo, if_neg h240]
      split
      · split
        · rw [decodeEventData_length]
        · rfl
      · split
        · split
          · rw [decodeEventData_length, decodeMetaEvent_length]
          · rw [decodeMetaEvent_length]
        · rw [decodeEventData_length]

theorem decodeEventRest_buffer (trk : KMTrk) (ctx : KCtx) (s : Nat) :
    ((decodeEventRest trk ctx s).1.2).mfd.buffer = ctx.mfd.buffer := by
  by_cases hlo : s < 128
  · simp only [decodeEventRest, if_pos hlo]
  · by_cases h240 : s < 240
    · simp only [decodeEventRest, if_neg hlo, if_pos h240]
      split
      · split
        · rw [decodeEventData_buffer]
          dsimp only
          rw [readVarQ_buffer]
        · try dsimp only
          rw [readVarQ_buffer]
      · split
        · split
          · rw [decodeEventData_buffer, decodeMetaEvent_buffer]
          · rw [decodeMetaEvent_buffer]
        · rw [decodeEventData_buffer]
    · simp only [decodeEventRest, if_neg hlo, if_neg h240]
      split
      · split
        · rw [decodeEventData_buffer]
          dsimp only
          rw [readVarQ_buffer]
        · try dsimp only
          rw [readVarQ_buffer]
      · split
        · split
          · rw [decodeEventData_buffer, decodeMetaEvent_buffer]
          · rw [decodeMetaEvent_buffer]
        · rw [decodeEventData_buffer]

theorem decodeEvent_start (trk : KMTrk) (ctx : KCtx) :
    ((decodeEvent trk ctx).1.1).start = trk.start := by
  unfold decodeEvent
  split
  · rfl
  · split
    · rfl
    · dsimp only
      split
      · split
        · rfl
        · rw [decodeEventRest_start]
      · rw [decodeEventRest_start]

theorem decodeEvent_length (trk : KMTrk) (ctx : KCtx) :
    ((decodeEvent trk ctx).1.1).length = trk.length := by
  unfold decodeEvent
  split
  · rfl
  · split
    · rfl
    · dsimp only
      split
      · split
        · rfl
        · rw [decodeEventRest_length]
      · rw [decodeEventRest_length]

theorem decodeEvent_buffer (trk : KMTrk) (ctx : KCtx) :
    ((decodeEvent trk ctx).1.2).mfd.buffer = ctx.mfd.buffer := by
  unfold decodeEvent
  split
  · rfl
  · split
    · rfl
    · rename_i mfd1 hseek
      dsimp only
      split
      · split
        · rename_i hs2
          dsimp only
          rw [memRead1_buffer, memSeek_buffer _ _ _ _ hseek]
        · rename_i mfd2 hseek2
          rw [decodeEventRest_buffer]
          dsimp only
          rw [memSeek_buffer _ _ _ _ hseek2, memRead1_buffer, memSeek_buffer _ _ _ _ hseek]
      · rw [decodeEventRest_buffer]
        dsimp only
        rw [memRead1_buffer, memSeek_buffer _ _ _ _ hseek]

theorem os2SysExScan_buffer (rem : Nat) : ∀ (m : KMemFd) (off : Nat) (acc : List Nat),
    ((os2SysExScan rem m off acc).2.1).buffer = m.buffer := by
  induction rem with
  | zero => intro m off acc; rfl
  | succ n ih =>
      intro m off acc
      unfold os2SysExScan
      dsimp only
      split
      · exact memRead1_buffer m 0
      · exact (ih _ _ _).trans (memRead1_buffer m 0)

theorem os2SysExDrain_buffer (fuel : Nat) : ∀ (m : KMemFd) (off : Nat),
    ((os2SysExDrain fuel m off).1.1).buffer = m.buffer := by
  induction fuel with
  | zero => intro m off; rfl
  | succ n ih =>
      intro m off
      unfold os2SysExDrain
      dsimp only
      split
      · exact memRead1_buffer m 0
      · exact (ih _ _).trans (memRead1_buffer m 0)

theorem decodeOS2SysExEvent_start (trk : KMTrk) (ctx : KCtx) :
    ((decodeOS2SysExEvent trk ctx).1.1).start = trk.start := by
  unfold decodeOS2SysExEvent
  dsimp only
  split
  · split
    · split_ifs <;> rfl
    · rfl
  · rfl

theorem decodeOS2SysExEvent_length (trk : KMTrk) (ctx : KCtx) :
    ((decodeOS2SysExEvent trk ctx).1.1).length = trk.length := by
  unfold decodeOS2SysExEvent
  dsimp only
  split
  · split
    · split_ifs <;> rfl
    · rfl
  · rfl

theorem decodeOS2SysExEvent_buffer (trk : KMTrk) (ctx : KCtx) :
    ((decodeOS2SysExEvent trk ctx).1.2).mfd.buffer = ctx.mfd.buffer := by
  unfold decodeOS2SysExEvent
  dsimp only
  split
  · split
    · split_ifs <;>
        · try dsimp only
          rw [os2SysExScan_buffer]
    · try dsimp only
      rw [os2SysExScan_buffer]
  · try dsimp only
    rw [os2SysExDrain_buffer, os2SysExScan_buffer]

theorem decodeOS2EventRest_start (trk : KMTrk) (ctx : KCtx) (s : Nat) :
    ((decodeOS2EventRest trk ctx s).1.1).start = trk.start := by
  by_cases hlo : s < 128
  · simp only [decodeOS2EventRest, if_pos hlo]
  · by_cases h240 : s < 240
    · simp only [decodeOS2EventRest, if_neg hlo, if_pos h240]
      split
      · split
        · rfl
        · rw [decodeOS2SysExEvent_start]
      · rfl
    · simp only [decodeOS2EventRest, if_neg hlo, if_neg h240]
      split
      · split
        · rfl
        · rw [decodeOS2SysExEvent_start]
      · rfl

theorem decodeOS2EventRest_length (trk : KMTrk) (ctx : KCtx) (s : Nat) :
    ((decodeOS2EventRest trk ctx s).1.1).length = trk.length := by
  by_cases hlo : s < 128
  · simp only [decodeOS2EventRest, if_pos hlo]
  · by_cases h240 : s < 240
    · simp only [decodeOS2EventRest, if_neg hlo, if_pos h240]
      split
      · split
        · rfl
        · rw [decodeOS2SysExEvent_length]
      · rfl
    · simp only [decodeOS2EventRest, if_neg hlo, if_neg h240]
      split
      · split
        · rfl
        · rw [decodeOS2SysExEvent_length]
      · rfl

theorem decodeOS2EventRest_buffer (trk : KMTrk) (ctx : KCtx) (s : Nat) :
    ((decodeOS2EventRest trk ctx s).1.2).mfd.buffer = ctx.mfd.buffer := by
  by_cases hlo : s < 128
  · simp only [decodeOS2EventRest, if_pos hlo]
  · by_cases h240 : s < 240
    · simp only [decodeOS2EventRest, if_neg hlo, if_pos h240]
      split
      · split
        · try dsimp only
          rw [memReadList_buffer]
        · rw [decodeOS2SysExEvent_buffer]
          dsimp only
          rw [memReadList_buffer]
      · try dsimp only
        rw [memReadList_buffer]
    · simp only [decodeOS2EventRest, if_neg hlo, if_neg h240]
      split
      · split
        · try dsimp only
          rw [memReadList_buffer]
        · rw [decodeOS2SysExEvent_buffer]
          dsimp only
          rw [memReadList_buffer]
      · try dsimp only
        rw [memReadList_buffer]

theorem decodeOS2Event_start (trk : KMTrk) (ctx : KCtx) :
    ((decodeOS2Event trk ctx).1.1).start = trk.start := by
  unfold decodeOS2Event
  split
  · rfl
  · dsimp only
    split
    · split
      · rfl
      · rw [decodeOS2EventRest_start]
    · rw [decodeOS2EventRest_start]

theorem decodeOS2Event_length (trk : KMTrk) (ctx : KCtx) :
    ((decodeOS2Event trk ctx).1.1).length = trk.length := by
  unfold decodeOS2Event
  split
  · rfl
  · dsimp only
    split
    · split
      · rfl
      · rw [decodeOS2EventRest_length]
    · rw [decodeOS2EventRest_length]

theorem decodeOS2Event_buffer (trk : KMTrk) (ctx : KCtx) :
    ((decodeOS2Event trk ctx).1.2).mfd.buffer = ctx.mfd.buffer := by
  unfold decodeOS2Event
  split
  · rfl
  · dsimp only
    split
    · split
      · try dsimp only
        rw [memRead1_buffer]
      · rename_i mfd2 hseek2
        rw [decodeOS2EventRest_buffer]
        dsimp only
        rw [memSeek_buffer _ _ _ _ hseek2, memRead1_buffer]
    · rw [decodeOS2EventRest_buffer]
      dsimp only
      rw [memRead1_buffer]

theorem decodeTracksGo_statics (format tick : Nat) :
    ∀ (trks : List KMTrk) (ctx : KCtx) (acc : List KMTrk) (mn : Nat),
      ((decodeTracksGo format tick trks ctx acc mn).1.1).map trkSL =
        acc.reverse.map trkSL ++ trks.map trkSL ∧
      ((decodeTracksGo format tick trks ctx acc mn).1.2.1).mfd.buffer = ctx.mfd.buffer ∧
      (decodeTracksGo format tick trks ctx acc mn).1.2.2 ≤ mn
  | [], ctx, acc, mn =>
      ⟨by simp [decodeTracksGo], rfl, le_refl mn⟩
  | trk :: rest, ctx, acc, mn => by
      unfold decodeTracksGo
      dsimp only
      set R := (if trk.nextTick ≤ tick then
          (if format = OS2MIDI then decodeOS2Event trk ctx else decodeEvent trk ctx)
        else ((trk, ctx), true)) with hR
      have hsl : trkSL R.1.1 = trkSL trk := by
        rw [hR]
        split
        · split
          · unfold trkSL
            rw [decodeOS2Event_start, decodeOS2Event_length]
          · unfold trkSL
            rw [decodeEvent_start, decodeEvent_length]
        · rfl
      have hbuf : R.1.2.mfd.buffer = ctx.mfd.buffer := by
        rw [hR]
        split
        · split
          · exact decodeOS2Event_buffer trk ctx
          · exact decodeEvent_buffer trk ctx
        · rfl
      split
      · obtain ⟨ih1, ih2, ih3⟩ := decodeTracksGo_statics format tick rest R.1.2 (R.1.1 :: acc)
          (if R.1.1.nextTick < mn then R.1.1.nextTick else mn)
        refine ⟨?_, ih2.trans hbuf, le_trans ih3 (by split <;> omega)⟩
        rw [ih1]
        simp [hsl, List.append_assoc]
      · refine ⟨?_, hbuf, le_refl mn⟩
        simp [hsl]

theorem decode_props (dec : KMDec) (mode : Nat) :
    (decode dec mode).1.header = dec.header ∧
    (decode dec mode).1.closeFd = dec.closeFd ∧
    (decode dec mode).1.clockUnit = dec.clockUnit ∧
    (decode dec mode).1.sampleRate = dec.sampleRate ∧
    (decode dec mode).1.sampleSize = dec.sampleSize ∧
    (decode dec mode).1.duration = dec.duration ∧
    ((decode dec mode).1.tracks).map trkSL = dec.tracks.map trkSL ∧
    (decode dec mode).1.mfd.buffer = dec.mfd.buffer ∧
    dec.clock ≤ (decode dec mode).1.clock ∧
    (dec.tick < END_OF_TRACK → (decode dec mode).1.tick < END_OF_TRACK) := by
  obtain ⟨h1, h2, h3⟩ := decodeTracksGo_statics dec.header.format dec.tick dec.tracks
    ⟨dec.mfd, dec.tempo, dec.numerator, dec.denominator⟩ [] END_OF_TRACK
  unfold decode
  dsimp only
  split
  · split
    · refine ⟨?_, ?_, ?_, ?_, ?_, ?_, ?_, ?_, ?_, ?_⟩ <;>
        first
          | rfl
          | trivial
          | exact h2
          | simpa using h1
          | exact le_refl _
          | exact fun h => h
    · split
      · rename_i hr2 hmn hadv
        by_cases hm : mode = DECODE_PLAY
        · simp only [if_pos hm]
          refine ⟨?_, ?_, ?_, ?_, ?_, ?_, ?_, ?_, ?_, fun ht => ?_⟩ <;>
            first
              | rfl
              | trivial
              | exact h2
              | simpa using h1
              | exact Nat.le_add_right _ _
              | (try dsimp only
                 split <;> first
                   | (split <;> omega)
                   | omega)
        · simp only [if_neg hm]
          refine ⟨?_, ?_, ?_, ?_, ?_, ?_, ?_, ?_, ?_, fun ht => ?_⟩ <;>
            first
              | rfl
              | trivial
              | exact h2
              | simpa using h1
              | exact Nat.le_add_right _ _
              | (try dsimp only
                 split <;> first
                   | (split <;> omega)
                   | omega)
      · refine ⟨?_, ?_, ?_, ?_, ?_, ?_, ?_, ?_, ?_, ?_⟩ <;>
          first
            | rfl
            | trivial
            | exact h2
            | simpa using h1
            | exact le_refl _
            | exact fun h => h
  · refine ⟨?_, ?_, ?_, ?_, ?_, ?_, ?_, ?_, ?_, ?_⟩ <;>
      first
        | rfl
        | trivial
        | exact h2
        | simpa using h1
        | exact le_refl _
        | exact fun h => h

theorem decode_bufErase (d : KMDec) (m : Nat) :
    (decode (bufErase d) DECODE_SEEK).1 = bufErase (decode d m).1 := by
  unfold decode bufErase
  dsimp only
  rw [if_neg (by decide : ¬ (DECODE_SEEK = DECODE_PLAY))]
  by_cases hm : m = DECODE_PLAY
  · subst hm
    rw [if_pos (rfl : DECODE_PLAY = DECODE_PLAY)]
    split
    · split
      · rfl
      · split
        · rfl
        · rfl
    · rfl
  · rw [if_neg hm]
    split
    · split
      · rfl
      · split
        · rfl
        · rfl
    · rfl

theorem stepSeek_clock (d : KMDec) : d.clock ≤ (stepSeek d).clock :=
  (decode_props d DECODE_SEEK).2.2.2.2.2.2.2.2.1

theorem stepSeek_tick (d : KMDec) (h : d.tick < END_OF_TRACK) :
    (stepSeek d).tick < END_OF_TRACK :=
  (decode_props d DECODE_SEEK).2.2.2.2.2.2.2.2.2 h

theorem traj_shift (d : KMDec) (n : Nat) : traj (stepSeek d) n = traj d (n + 1) := by
  induction n with
  | zero => rfl
  | succ k ih =>
      have h1 : traj (stepSeek d) (k + 1) = stepSeek (traj (stepSeek d) k) := rfl
      have h2 : traj d (k + 1 + 1) = stepSeek (traj d (k + 1)) := rfl
      rw [h1, h2, ih]

theorem traj_fields (d : KMDec) (n : Nat) :
    (traj d n).header = d.header ∧
    (traj d n).closeFd = d.closeFd ∧
    (traj d n).clockUnit = d.clockUnit ∧
    (traj d n).sampleRate = d.sampleRate ∧
    (traj d n).sampleSize = d.sampleSize ∧
    (traj d n).duration = d.duration ∧
    ((traj d n).tracks).map trkSL = d.tracks.map trkSL ∧
    (traj d n).mfd.buffer = d.mfd.buffer ∧
    (d.tick < END_OF_TRACK → (traj d n).tick < END_OF_TRACK) := by
  induction n with
  | zero => exact ⟨rfl, rfl, rfl, rfl, rfl, rfl, rfl, rfl, fun h => h⟩
  | succ k ih =>
      obtain ⟨i1, i2, i3, i4, i5, i6, i7, i8, i9⟩ := ih
      obtain ⟨p1, p2, p3, p4, p5, p6, p7, p8, _, p10⟩ := decode_props (traj d k) DECODE_SEEK
      exact ⟨p1.trans i1, p2.trans i2, p3.trans i3, p4.trans i4, p5.trans i5,
        p6.trans i6, p7.trans i7, p8.trans i8, fun h => p10 (i9 h)⟩

theorem traj_clock_mono (d : KMDec) (n j : Nat) :
    (traj d n).clock ≤ (traj d (n + j)).clock := by
  induction j with
  | zero => exact le_refl _
  | succ i ih => exact le_trans ih (stepSeek_clock (traj d (n + i)))

theorem decodeTracksGo_allEnd (format tick : Nat) (htick : tick < END_OF_TRACK) :
    ∀ (trks : List KMTrk) (ctx : KCtx) (acc : List KMTrk),
      (∀ t ∈ trks, t.nextTick = END_OF_TRACK) →
      decodeTracksGo format tick trks ctx acc END_OF_TRACK =
        ((acc.reverse ++ trks, ctx, END_OF_TRACK), true)
  | [], ctx, acc, h => by simp [decodeTracksGo]
  | trk :: rest, ctx, acc, h => by
      have hnt : trk.nextTick = END_OF_TRACK := h trk (by simp)
      unfold decodeTracksGo
      dsimp only
      rw [if_neg (by omega : ¬ trk.nextTick ≤ tick)]
      dsimp only
      rw [if_neg (by omega : ¬ trk.nextTick < END_OF_TRACK)]
      rw [decodeTracksGo_allEnd format tick htick rest ctx (trk :: acc)
        (fun t ht => h t (by simp [ht]))]
      simp

theorem stepSeek_fix (d : KMDec) (hend : allEnd d) (htick : d.tick < END_OF_TRACK) :
    stepSeek d = d := by
  unfold stepSeek decode
  dsimp only
  rw [decodeTracksGo_allEnd d.header.format d.tick htick d.tracks
    ⟨d.mfd, d.tempo, d.numerator, d.denominator⟩ [] hend]
  dsimp only
  rw [if_pos (rfl : END_OF_TRACK = END_OF_TRACK)]
  rfl

theorem prescanRun_traj (fuel : Nat) : ∀ (d dE : KMDec), prescanRun fuel d = some dE →
    ∃ k, dE = traj d (k + 1) := by
  induction fuel with
  | zero =>
      intro d dE h
      exact absurd h (by simp [prescanRun])
  | succ n ih =>
      intro d dE h
      unfold prescanRun at h
      dsimp only at h
      split at h
      · obtain ⟨k, hk⟩ := ih _ _ h
        exact ⟨k + 1, by rw [hk]; exact traj_shift d (k + 1)⟩
      · rw [Option.some_inj] at h
        exact ⟨0, h.symm⟩

theorem traj_absorb (d : KMDec) (k : Nat) (hend : allEnd (traj d k))
    (htick : (traj d k).tick < END_OF_TRACK) :
    ∀ j, traj d (k + j) = traj d k := by
  intro j
  induction j with
  | zero => rfl
  | succ i ih =>
      have h1 : traj d (k + (i + 1)) = stepSeek (traj d (k + i)) := rfl
      rw [h1, ih]
      exact stepSeek_fix _ hend htick

theorem traj_clock_le (d0 dE : KMDec) (fuel2 : Nat)
    (hpre : prescanRun fuel2 d0 = some dE)
    (hend : allEnd dE) (hclk : dE.clock = d0.duration)
    (htick : d0.tick < END_OF_TRACK) :
    ∀ n, (traj d0 n).clock ≤ d0.duration := by
  obtain ⟨k, hk⟩ := prescanRun_traj fuel2 d0 dE hpre
  intro n
  rcases le_or_lt n (k + 1) with h | h
  · obtain ⟨j, hj⟩ := Nat.exists_eq_add_of_le h
    calc (traj d0 n).clock ≤ (traj d0 (n + j)).clock := traj_clock_mono d0 n j
      _ = (traj d0 (k + 1)).clock := by rw [← hj]
      _ = dE.clock := by rw [hk]
      _ = d0.duration := hclk
  · obtain ⟨j, hj⟩ := Nat.exists_eq_add_of_le (le_of_lt h)
    have habs : traj d0 n = traj d0 (k + 1) := by
      rw [hj]
      exact traj_absorb d0 (k + 1) (by rw [← hk]; exact hend)
        ((traj_fields d0 (k + 1)).2.2.2.2.2.2.2.2 htick) j
    rw [habs, ← hk, hclk]

theorem memSeek_congr (mA mB : KMemFd) (hbuf : mA.buffer = mB.buffer) (o : Int) :
    memSeek mA o 0 = memSeek mB o 0 := by
  cases mA
  cases mB
  dsimp only at hbuf
  subst hbuf
  rfl

theorem decodeDelta_statusField (s l st : Nat) (m : KMemFd) :
    decodeDelta ⟨s, l, 0, 0, st⟩ m =
      (({ (decodeDelta ⟨s, l, 0, 0, 0⟩ m).1.1 with status := st },
        (decodeDelta ⟨s, l, 0, 0, 0⟩ m).1.2),
       (decodeDelta ⟨s, l, 0, 0, 0⟩ m).2) := by
  unfold decodeDelta
  dsimp only
  split_ifs <;> rfl

theorem resetGo_sl (format : Nat) : ∀ (trks : List KMTrk) (m : KMemFd) (acc : List KMTrk),
    ((resetGo format trks m acc).1.1).map trkSL = acc.reverse.map trkSL ++ trks.map trkSL ∧
    ((resetGo format trks m acc).1.2).buffer = m.buffer
  | [], m, acc => ⟨by simp [resetGo], rfl⟩
  | trk :: rest, m, acc => by
      unfold resetGo
      dsimp only
      split
      · exact ⟨by simp [trkSL], rfl⟩
      · rename_i mfd1 hseek
        have hb1 : mfd1.buffer = m.buffer := memSeek_buffer _ _ _ _ hseek
        split
        · set R := decodeDelta { trk with offset := 0, nextTick := 0 } mfd1 with hR
          have hsl : trkSL R.1.1 = trkSL trk := by
            unfold trkSL
            rw [hR, decodeDelta_start, decodeDelta_length]
          have hbR : R.1.2.buffer = mfd1.buffer := by
            rw [hR]
            exact decodeDelta_buffer _ _
          split
          · obtain ⟨ih1, ih2⟩ := resetGo_sl format rest R.1.2 ({ R.1.1 with status := 0 } :: acc)
            refine ⟨?_, ih2.trans (hbR.trans hb1)⟩
            rw [ih1]
            have : trkSL { R.1.1 with status := 0 } = trkSL trk := hsl
            simp [this, List.append_assoc]
          · refine ⟨?_, hbR.trans hb1⟩
            simp [hsl]
        · obtain ⟨ih1, ih2⟩ := resetGo_sl format rest mfd1
            ({ { trk with offset := 0, nextTick := 0 } with status := 0 } :: acc)
          refine ⟨?_, ih2.trans hb1⟩
          rw [ih1]
          simp [trkSL, List.append_assoc]

theorem reset_fields (d : KMDec) :
    (reset d).1.header = d.header ∧
    (reset d).1.closeFd = d.closeFd ∧
    (reset d).1.clockUnit = d.clockUnit ∧
    (reset d).1.sampleRate = d.sampleRate ∧
    (reset d).1.sampleSize = d.sampleSize ∧
    (reset d).1.duration = d.duration ∧
    ((reset d).1.tracks).map trkSL = d.tracks.map trkSL ∧
    (reset d).1.mfd.buffer = d.mfd.buffer := by
  obtain ⟨h1, h2⟩ := resetGo_sl d.header.format d.tracks d.mfd []
  unfold reset
  dsimp only
  split <;>
    refine ⟨?_, ?_, ?_, ?_, ?_, ?_, ?_, ?_⟩ <;>
      first
        | rfl
        | trivial
        | exact h2
        | simpa using h1

theorem reset_success (d : KMDec) (h : (reset d).2 = true) :
    (reset d).1.tick = 0 ∧ (reset d).1.clock = 0 ∧ (reset d).1.tempo = DEFAULT_TEMPO ∧
    (reset d).1.bufLen = 0 ∧ (reset d).1.bufPos = 0 ∧
    (reset d).1.tracks = (resetGo d.header.format d.tracks d.mfd []).1.1 ∧
    (reset d).1.mfd = (resetGo d.header.format d.tracks d.mfd []).1.2 := by
  unfold reset at h ⊢
  dsimp only at h ⊢
  split at h
  · rename_i hc
    rw [if_pos hc]
    exact ⟨rfl, rfl, rfl, rfl, rfl, rfl, rfl⟩
  · exact absurd h (by simp)

theorem resetGo_det (format : Nat) :
    ∀ (tA tB : List KMTrk) (mA mB : KMemFd) (acc : List KMTrk),
      tA.map trkSL = tB.map trkSL → mA.buffer = mB.buffer →
      (tA = [] → mA = mB) →
      (resetGo format tA mA acc).2 = (resetGo format tB mB acc).2 ∧
      ((resetGo format tA mA acc).2 = true →
        (resetGo format tA mA acc).1 = (resetGo format tB mB acc).1)
  | [], tB, mA, mB, acc, hmap, hbuf, hnil => by
      have htB : tB = [] := by
        cases tB with
        | nil => rfl
        | cons b bs => exact absurd hmap (by simp)
      subst htB
      have hm : mA = mB := hnil rfl
      subst hm
      exact ⟨rfl, fun _ => rfl⟩
  | trkA :: restA, tB, mA, mB, acc, hmap, hbuf, hnil => by
      cases tB with
      | nil => exact absurd hmap (by simp)
      | cons trkB restB =>
          simp only [List.map_cons, List.cons.injEq, trkSL, Prod.mk.injEq] at hmap
          obtain ⟨⟨hs, hl⟩, hrest⟩ := hmap
          unfold resetGo
          dsimp only
          rw [← hs, memSeek_congr mB mA hbuf.symm]
          split
          · exact ⟨rfl, fun h => absurd h (by simp)⟩
          · rename_i mfd1 hseek
            split
            · rw [← hl,
                  decodeDelta_statusField trkA.start trkA.length trkA.status mfd1,
                  decodeDelta_statusField trkA.start trkA.length trkB.status mfd1]
              dsimp only
              split
              · obtain ⟨f1, f2⟩ := resetGo_det format restA restB
                  (decodeDelta ⟨trkA.start, trkA.length, 0, 0, 0⟩ mfd1).1.2
                  (decodeDelta ⟨trkA.start, trkA.length, 0, 0, 0⟩ mfd1).1.2
                  ({ (decodeDelta ⟨trkA.start, trkA.length, 0, 0, 0⟩ mfd1).1.1 with status := 0 } :: acc)
                  hrest rfl (fun _ => rfl)
                exact ⟨f1, f2⟩
              · exact ⟨rfl, fun h => absurd h (by simp)⟩
            · obtain ⟨f1, f2⟩ := resetGo_det format restA restB mfd1 mfd1
                ({ { trkA with offset := 0, nextTick := 0 } with status := 0 } :: acc)
                hrest rfl (fun _ => rfl)
              rw [← hl]
              exact ⟨f1, f2⟩

theorem reset_det (dA dB : KMDec)
    (hh : dA.header = dB.header) (hcf : dA.closeFd = dB.closeFd)
    (hcu : dA.clockUnit = dB.clockUnit) (hsr : dA.sampleRate = dB.sampleRate)
    (hss : dA.sampleSize = dB.sampleSize) (hdu : dA.duration = dB.duration)
    (htr : dA.tracks.map trkSL = dB.tracks.map trkSL)
    (hbuf : dA.mfd.buffer = dB.mfd.buffer)
    (hnil : dA.tracks = [] → dA.mfd = dB.mfd) :
    (reset dA).2 = (reset dB).2 ∧
    ((reset dA).2 = true → (reset dA).1 = (reset dB).1) := by
  obtain ⟨f1, f2⟩ := resetGo_det dA.header.format dA.tracks dB.tracks dA.mfd dB.mfd []
    htr hbuf hnil
  unfold reset
  dsimp only
  rw [← hh]
  by_cases hc : (resetGo dA.header.format dA.tracks dA.mfd []).2 = true
  · rw [if_pos hc, if_pos (f1 ▸ hc)]
    refine ⟨rfl, fun _ => ?_⟩
    have he := f2 hc
    have he1 : (resetGo dA.header.format dA.tracks dA.mfd []).1.1 =
        (resetGo dA.header.format dB.tracks dB.mfd []).1.1 := by rw [he]
    have he2 : (resetGo dA.header.format dA.tracks dA.mfd []).1.2 =
        (resetGo dA.header.format dB.tracks dB.mfd []).1.2 := by rw [he]
    simp only [KMDec.mk.injEq]
    refine ⟨?_, ?_, ?_, ?_, ?_, ?_, ?_, ?_, ?_, ?_, ?_, ?_, ?_, ?_, ?_⟩ <;>
      first
        | trivial
        | rfl
        | exact hh
        | exact he1
        | exact he2
        | exact hcf
        | exact hcu
        | exact hsr
        | exact hss
        | exact hdu
  · rw [if_neg hc, if_neg (by rw [← f1]; exact hc)]
    exact ⟨rfl, fun h => absurd h (by simp)⟩

theorem bufErase_set (d : KMDec) (a b : Nat) :
    bufErase { d with bufPos := a, bufLen := b } = bufErase d := rfl

theorem stepP (d0 d : KMDec) (n m : Nat) (h : bufErase d = bufErase (traj d0 n)) :
    bufErase (decode d m).1 = bufErase (traj d0 (n + 1)) := by
  have ht : traj d0 (n + 1) = (decode (traj d0 n) DECODE_SEEK).1 := rfl
  rw [ht, ← decode_bufErase d m, ← decode_bufErase (traj d0 n) DECODE_SEEK, h]

theorem kmdecDecodeGo_P (d0 : KMDec) (fuel : Nat) :
    ∀ (d : KMDec) (size total : Nat) (n : Nat),
      bufErase d = bufErase (traj d0 n) →
      ∃ k, bufErase (kmdecDecodeGo fuel d size total).1 = bufErase (traj d0 k) := by
  induction fuel with
  | zero => intro d size total n h; exact ⟨n, h⟩
  | succ f ih =>
      intro d size total n h
      unfold kmdecDecodeGo
      dsimp only
      split
      · exact ⟨n, h⟩
      · split
        · split
          · exact ih _ _ _ (n + 1) ((bufErase_set _ _ _).trans (stepP d0 d n DECODE_PLAY h))
          · exact ⟨n + 1, stepP d0 d n DECODE_PLAY h⟩
        · exact ih _ _ _ n ((bufErase_set _ _ _).trans h)

theorem seekLoop_P (d0 : KMDec) (fuel : Nat) :
    ∀ (tgt : Nat) (d : KMDec) (n : Nat),
      bufErase d = bufErase (traj d0 n) →
      ∃ k, bufErase (seekLoop fuel tgt d) = bufErase (traj d0 k) := by
  induction fuel with
  | zero => intro tgt d n h; exact ⟨n, h⟩
  | succ f ih =>
      intro tgt d n h
      unfold seekLoop
      dsimp only
      split
      · split
        · exact ih tgt _ (n + 1) (stepP d0 d n DECODE_SEEK h)
        · exact ⟨n + 1, stepP d0 d n DECODE_SEEK h⟩
      · exact ⟨n, h⟩

theorem openDec_reset (bytes : List Nat) (ai : KMDecAudioInfo) (fuel : Nat) (d0 : KMDec)
    (hopen : openDec bytes ai fuel = some d0) :
    ∃ dP : KMDec, (reset { dP with duration := dP.clock }).2 = true ∧
      (reset { dP with duration := dP.clock }).1 = d0 := by
  unfold openDec at hopen
  cases hP : prescanStop bytes ai fuel with
  | none =>
      rw [hP] at hopen
      exact absurd hopen (by simp)
  | some dP =>
      rw [hP] at hopen
      dsimp only at hopen
      split at hopen
      · rename_i hc
        rw [Option.some_inj] at hopen
        exact ⟨dP, hc, hopen⟩
      · exact absurd hopen (by simp)

theorem reachable_reset (d0 dP : KMDec)
    (hr2 : (reset { dP with duration := dP.clock }).2 = true)
    (hr1 : (reset { dP with duration := dP.clock }).1 = d0)
    (d : KMDec) (n : Nat) (h : bufErase d = bufErase (traj d0 n)) :
    (reset d).2 = true ∧ (reset d).1 = d0 := by
  obtain ⟨t1, t2, t3, t4, t5, t6, t7, t8, t9⟩ := traj_fields d0 n
  obtain ⟨g1, g2, g3, g4, g5, g6, g7, g8⟩ := reset_fields { dP with duration := dP.clock }
  obtain ⟨s1, s2, s3, s4, s5, s6, s7⟩ := reset_success { dP with duration := dP.clock } hr2
  have e1p := congrArg KMDec.header h
  have e1 : d.header = (traj d0 n).header := e1p
  have e2p := congrArg KMDec.closeFd h
  have e2 : d.closeFd = (traj d0 n).closeFd := e2p
  have e3p := congrArg KMDec.clockUnit h
  have e3 : d.clockUnit = (traj d0 n).clockUnit := e3p
  have e4p := congrArg KMDec.sampleRate h
  have e4 : d.sampleRate = (traj d0 n).sampleRate := e4p
  have e5p := congrArg KMDec.sampleSize h
  have e5 : d.sampleSize = (traj d0 n).sampleSize := e5p
  have e6p := congrArg KMDec.duration h
  have e6 : d.duration = (traj d0 n).duration := e6p
  have e7p := congrArg KMDec.tracks h
  have e7 : d.tracks = (traj d0 n).tracks := e7p
  have e8p := congrArg KMDec.mfd h
  have e8 : d.mfd = (traj d0 n).mfd := e8p
  rw [hr1] at g1 g2 g3 g4 g5 g6 g7 g8 s1 s2 s6 s7
  have hnil : d.tracks = [] → d.mfd = ({ dP with duration := dP.clock } : KMDec).mfd := by
    intro hdt
    have h0t : d0.tracks = [] := by
      have htn : (traj d0 n).tracks = [] := e7.symm.trans hdt
      have hm : (traj d0 n).tracks.map trkSL = d0.tracks.map trkSL := t7
      rw [htn] at hm
      cases hd0 : d0.tracks with
      | nil => rfl
      | cons a as => rw [hd0] at hm; exact absurd hm.symm (by simp)
    have hdPt : ({ dP with duration := dP.clock } : KMDec).tracks = [] := by
      have hm := g7
      rw [h0t] at hm
      cases hdP : ({ dP with duration := dP.clock } : KMDec).tracks with
      | nil => rfl
      | cons a as => rw [hdP] at hm; exact absurd hm (by simp)
    have habs : traj d0 n = d0 := by
      have he : allEnd (traj d0 0) := by
        intro t ht
        rw [show traj d0 0 = d0 from rfl, h0t] at ht
        exact absurd ht (by simp)
      have hti : (traj d0 0).tick < END_OF_TRACK := by
        rw [show traj d0 0 = d0 from rfl, s1]
        unfold END_OF_TRACK
        omega
      have := traj_absorb d0 0 he hti n
      simpa using this
    rw [e8, habs, s7, hdPt]
    rfl
  obtain ⟨f1, f2⟩ := reset_det d { dP with duration := dP.clock }
    (e1.trans (t1.trans g1)) (e2.trans (t2.trans g2))
    (e3.trans (t3.trans g3)) (e4.trans (t4.trans g4))
    (e5.trans (t5.trans g5)) (e6.trans (t6.trans g6))
    ((congrArg (List.map trkSL) e7).trans (t7.trans g7))
    ((congrArg KMemFd.buffer e8).trans (t8.trans g8))
    hnil
  have hf : (reset d).2 = true := by rw [f1]; exact hr2
  exact ⟨hf, (f2 hf).trans hr1⟩

theorem kmdecSeek_P (d0 dP : KMDec)
    (hr2 : (reset { dP with duration := dP.clock }).2 = true)
    (hr1 : (reset { dP with duration := dP.clock }).1 = d0)
    (offset origin : Int) (fuel : Nat) (d : KMDec) (n : Nat)
    (h : bufErase d = bufErase (traj d0 n)) :
    ∃ k, bufErase (((kmdecSeek (some d) offset origin fuel).1).getD d) = bufErase (traj d0 k) := by
  have hd1 : ∀ tgt : Nat, ∃ k, bufErase (seekLoop fuel tgt
      (if tgt < d.clock then (reset d).1 else d)) = bufErase (traj d0 k) := by
    intro tgt
    by_cases hlt : tgt < d.clock
    · rw [if_pos hlt, (reachable_reset d0 dP hr2 hr1 d n h).2]
      exact seekLoop_P d0 fuel tgt d0 0 rfl
    · rw [if_neg hlt]
      exact seekLoop_P d0 fuel tgt d n h
  unfold kmdecSeek
  dsimp only
  by_cases h0 : origin = 0
  · simp only [if_pos h0, Option.getD_some]
    exact hd1 _
  · simp only [if_neg h0]
    by_cases h1 : origin = 1
    · simp only [if_pos h1, Option.getD_some]
      exact hd1 _
    · simp only [if_neg h1]
      by_cases h2 : origin = 2
      · simp only [if_pos h2, Option.getD_some]
        exact hd1 _
      · simp only [if_neg h2, Option.getD_some]
        exact ⟨n, h⟩

theorem applyOp_P (d0 dP : KMDec)
    (hr2 : (reset { dP with duration := dP.clock }).2 = true)
    (hr1 : (reset { dP with duration := dP.clock }).1 = d0)
    (d : KMDec) (op : KOp) (n : Nat)
    (h : bufErase d = bufErase (traj d0 n)) :
    ∃ k, bufErase (applyOp d op) = bufErase (traj d0 k) := by
  cases op with
  | kdecode size fuel => exact kmdecDecodeGo_P d0 fuel d size 0 n h
  | kseek offset origin fuel => exact kmdecSeek_P d0 dP hr2 hr1 offset origin fuel d n h

theorem applyOps_P (d0 dP : KMDec)
    (hr2 : (reset { dP with duration := dP.clock }).2 = true)
    (hr1 : (reset { dP with duration := dP.clock }).1 = d0) :
    ∀ (ops : List KOp) (d : KMDec) (n : Nat),
      bufErase d = bufErase (traj d0 n) →
      ∃ k, bufErase (applyOps ops d) = bufErase (traj d0 k)
  | [], d, n, h => ⟨n, h⟩
  | op :: rest, d, n, h => by
      obtain ⟨k, hk⟩ := applyOp_P d0 dP hr2 hr1 d op n h
      exact applyOps_P d0 dP hr2 hr1 rest (applyOp d op) k hk

/-- Claim C2 (amended): the invariant `position() ≤ duration()` holds for
every input whose pre-scan replay terminates cleanly: if re-running the
seek-mode scheduler from the opened decoder state reaches a state in which
every track is at `END_OF_TRACK` and whose clock equals the captured
duration, then after every subsequent sequence of `kmdecDecode` and
`kmdecSeek` calls, `kmdecGetPosition` is at most `kmdecGetDuration`.  (The
unamended claim, quantified over all accepted inputs, is refuted by
`clockDurationCounterexample`.) -/
theorem clockNeverExceedsDuration (bytes : List Nat) (ai : KMDecAudioInfo)
    (fuel fuel2 : Nat) (d0 dE : KMDec) (ops : List KOp)
    (hopen : openDec bytes ai fuel = some d0)
    (hpre : prescanRun fuel2 d0 = some dE)
    (hend : allEnd dE)
    (hclk : dE.clock = d0.duration) :
    kmdecGetPosition (some (applyOps ops d0)) ≤ kmdecGetDuration (some (applyOps ops d0)) := by
  obtain ⟨dP, hr2, hr1⟩ := openDec_reset bytes ai fuel d0 hopen
  have htick0 : d0.tick = 0 := by
    rw [← hr1]
    exact (reset_success _ hr2).1
  obtain ⟨k, hk⟩ := applyOps_P d0 dP hr2 hr1 ops d0 0 rfl
  have hclockp := congrArg KMDec.clock hk
  have hclock : (applyOps ops d0).clock = (traj d0 k).clock := hclockp
  have hdurp := congrArg KMDec.duration hk
  have hdur1 : (applyOps ops d0).duration = (traj d0 k).duration := hdurp
  have hdur : (applyOps ops d0).duration = d0.duration :=
    hdur1.trans (traj_fields d0 k).2.2.2.2.2.1
  have hb : (applyOps ops d0).clock ≤ (applyOps ops d0).duration := by
    rw [hclock, hdur]
    exact traj_clock_le d0 dE fuel2 hpre hend hclk
      (by rw [htick0]; unfold END_OF_TRACK; omega) k
  unfold kmdecGetPosition kmdecGetDuration
  dsimp only
  have hm : 1000 * (applyOps ops d0).clock ≤ 1000 * (applyOps ops d0).duration := by omega
  exact Int.ofNat_le.mpr (Nat.div_le_div_right hm)

set_option maxRecDepth 10000 in
/-- Witness for the amended C2: on the opened S1 file, a decode call
followed by a forward seek keeps the position at or below the duration. -/
theorem clockNeverExceedsDurationWitness :
    kmdecGetPosition (some (applyOps [KOp.kdecode 4 3, KOp.kseek 5 0 3] w2Dec)) ≤
      kmdecGetDuration (some (applyOps [KOp.kdecode 4 3, KOp.kseek 5 0 3] w2Dec)) :=
  clockNeverExceedsDuration s1File aiStd 10 10 w2Dec w2End
    [KOp.kdecode 4 3, KOp.kseek 5 0 3]
    (by decide) (by decide) (by unfold allEnd; decide) (by decide)

set_option maxRecDepth 10000 in
/-- Counterexample to C2 as stated: `cexFile` is accepted by `open`, but its
pre-scan stops at a parse error (an `F0` SysEx without the `F7` terminator)
with duration 0, and two subsequent `kmdecDecode` calls re-enter the
scheduler, which re-parses the bytes after the error point as fresh events
and pushes the clock past the captured duration: `kmdecGetPosition` then
exceeds `kmdecGetDuration`. -/
theorem clockDurationCounterexample :
    (openDec cexFile aiStd 100).isSome = true ∧
    kmdecGetDuration
        (kmdecDecode (kmdecDecode (openDec cexFile aiStd 100) 1 10).1 1 10).1 <
      kmdecGetPosition
        (kmdecDecode (kmdecDecode (openDec cexFile aiStd 100) 1 10).1 1 10).1 := by
  refine ⟨by decide, by decide⟩
